import Mathlib

set_option maxRecDepth 16000

/-!
Shallow embedding of the TAL chess engine (src/TAL.py) and the relevant parts of
the EVA search layer (src/EVA.py), together with theorems settling the frozen
claims about the natural-language specification.

Modelling conventions:
* Python lists of single-character strings become `List Char`; the 8×8 board is
  `List (List Char)`.
* Python's `list.append` / `list.pop()` pair (used strictly as a stack for every
  log in `GameState`) is modelled with the head of a Lean list as the top of the
  stack; `log[-1]` is the head.
* Python dicts (`board_position_counts`) are modelled as insertion-ordered
  association lists: updating an existing key rewrites it in place, a new key is
  appended at the end, exactly matching CPython's ordered-dict semantics.
* Python ints are `Int` where arithmetic can go negative (coordinates,
  directions) and `Nat` for the fifty-move counter and repetition counts.
* Out-of-range board indexing raises `IndexError` in Python (negative indices
  wrap).  The embedding returns the junk square `'?'` on reads and is a no-op on
  writes; every theorem below only exercises in-range accesses, so the two
  semantics agree on all inputs appearing in the theorems.
* `self.enpassant_possible` is `()` or a pair in Python; it becomes
  `Option (Int × Int)`.
-/

-- --------------------------- FEN helpers ---------------------------

abbrev Board := List (List Char)

/-- Python `str.split('/')` (keeps empty chunks), at the `List Char` level. -/
def splitSlash : List Char → List (List Char)
  | [] => [[]]
  | c :: t => if c = '/' then [] :: splitSlash t else
      match splitSlash t with
      | [] => [[c]]
      | h :: r => (c :: h) :: r

/-- Auxiliary tokenizer for Python `str.split()` (split on whitespace runs,
dropping empty tokens); `acc` is the current token, reversed. -/
def splitWsAux : List Char → List Char → List (List Char)
  | [], acc => if acc = [] then [] else [acc.reverse]
  | c :: t, acc =>
      if c.isWhitespace then
        if acc = [] then splitWsAux t [] else acc.reverse :: splitWsAux t []
      else splitWsAux t (c :: acc)

/-- Python `str.split()` with no argument. -/
def splitWs (l : List Char) : List (List Char) := splitWsAux l []

def digitVal (c : Char) : Nat := c.toNat - 48

/-- One rank of the FEN board part: digits expand to runs of `'-'`. -/
def expandRank (rank : List Char) : List Char :=
  rank.flatMap (fun ch => if ch.isDigit then List.replicate (digitVal ch) '-' else [ch])

/-- `fen_to_board` from TAL.py: parse the first FEN field into the 8×8 array. -/
def fen_to_board (fen : List Char) : Board :=
  let board_part : List Char := (splitWs fen).headD []
  (splitSlash board_part).map expandRank

/-- Run-length encoder for one board row (`board_to_fen`'s inner loop).
`empty` is the count of `'-'` squares not yet flushed. -/
def fenRowAux : List Char → Nat → List Char
  | [], empty => if empty ≠ 0 then (Nat.repr empty).data else []
  | ch :: t, empty =>
      if ch = '-' then fenRowAux t (empty + 1)
      else (if empty ≠ 0 then (Nat.repr empty).data else []) ++ ch :: fenRowAux t 0

/-- Python `sep.join(parts)` for a one-character separator. -/
def pyJoin (sep : Char) : List (List Char) → List Char
  | [] => []
  | [x] => x
  | x :: xs => x ++ sep :: pyJoin sep xs

/-- `board_to_fen` from TAL.py: serialize the board array to the FEN board part. -/
def board_to_fen (board : Board) : List Char :=
  pyJoin '/' (board.map (fun row => fenRowAux row 0))

def INITIAL_FEN : String := "rnbqkbnr/pppppppp/8/8/8/8/PPPPPPPP/RNBQKBNR w KQkq - 0 1"

-- --------------------------- Board cell access ---------------------------

/-- `self.board[r][c]` (read).  All theorem-relevant accesses are in range. -/
def getCell (b : Board) (r c : Int) : Char :=
  if 0 ≤ r ∧ 0 ≤ c then (b.getD r.toNat []).getD c.toNat '?' else '?'

/-- `self.board[r][c] = x` (write).  All theorem-relevant accesses are in range.
(`List.modify` equals `b.set r (b[r].set c x)` on in-range indices and keeps the
board argument single-use, which keeps call-by-name evaluation linear.) -/
def setCell (b : Board) (r c : Int) (x : Char) : Board :=
  if 0 ≤ r ∧ 0 ≤ c then List.modify (fun row => row.set c.toNat x) r.toNat b else b

/-- The board is a genuine 8×8 grid. -/
def boardWF (b : Board) : Prop := b.length = 8 ∧ ∀ row ∈ b, row.length = 8

instance : DecidablePred boardWF := fun b => by unfold boardWF; infer_instance

-- --------------------------- Move / CastleRights ---------------------------

/-- `CastleRights` class (constructor argument order is wks, bks, wqs, bqs). -/
structure CastleRights where
  wks : Bool
  bks : Bool
  wqs : Bool
  bqs : Bool
deriving DecidableEq, Repr

/-- `Move` class.  `promotion_choice` is the optional attribute set only by the
GUI layer; `getattr(move, "promotion_choice", "Q")` becomes `.getD 'Q'`. -/
structure Move where
  start_row : Int
  start_col : Int
  end_row : Int
  end_col : Int
  piece_moved : Char
  piece_captured : Char
  is_pawn_promotion : Bool
  is_enpassant_move : Bool
  is_castle_move : Bool
  is_capture : Bool
  moveID : Int
  promotion_choice : Option Char
deriving DecidableEq, Repr

/-- `Move.__eq__`: equality is comparison of the encoded `moveID`. -/
def moveEq (a b : Move) : Bool := a.moveID = b.moveID

/-- Python `==`/`in`/`remove` on `Move` objects go through `__eq__`. -/
instance : BEq Move := ⟨moveEq⟩

/-- `Move.__init__`: derive moved/captured pieces and classify flags. -/
def mkMove (s e : Int × Int) (board : Board) (is_ep : Bool) (is_cs : Bool) : Move :=
  let piece_moved := getCell board s.1 s.2
  let piece_captured := getCell board e.1 e.2
  let piece_captured := if is_ep then (if piece_moved.toUpper = 'P' then 'p' else 'P')
                        else piece_captured
  { start_row := s.1
    start_col := s.2
    end_row := e.1
    end_col := e.2
    piece_moved := piece_moved
    piece_captured := piece_captured
    is_pawn_promotion := piece_moved.toLower = 'p' ∧ (e.1 = 0 ∨ e.1 = 7)
    is_enpassant_move := is_ep
    is_castle_move := is_cs
    is_capture := piece_captured ≠ '-'
    moveID := s.1 * 1000 + s.2 * 100 + e.1 * 10 + e.2
    promotion_choice := none }

-- --------------------------- GameState ---------------------------

/-- Insertion-ordered dict read: `d.get(k, dflt)`. -/
def dictGetD (d : List (String × Nat)) (k : String) (dflt : Nat) : Nat :=
  match d.find? (fun kv => kv.1 = k) with
  | some kv => kv.2
  | none => dflt

/-- `k in d`. -/
def dictContains (d : List (String × Nat)) (k : String) : Bool :=
  d.any (fun kv => kv.1 = k)

/-- `d[k] = v`: rewrite the first binding of `k` in place, else append. -/
def dictSet : List (String × Nat) → String → Nat → List (String × Nat)
  | [], k, v => [(k, v)]
  | kv :: t, k, v => if kv.1 = k then (k, v) :: t else kv :: dictSet t k v

/-- `d.pop(k, None)`: drop the first binding of `k` if present. -/
def dictPop (d : List (String × Nat)) (k : String) : List (String × Nat) :=
  d.eraseP (fun kv => kv.1 = k)

/-- The mutable `GameState` container, with every attribute of the Python class
that the engine core reads or writes (the rendering-only helpers are omitted). -/
structure GameState where
  board : Board
  white_to_move : Bool
  white_king_location : Int × Int
  black_king_location : Int × Int
  move_log : List Move
  checkmate : Bool
  stalemate : Bool
  in_check : Bool
  pins : List (Int × Int × Int × Int)
  checks : List (Int × Int × Int × Int)
  enpassant_possible : Option (Int × Int)
  enpassant_possible_log : List (Option (Int × Int))
  current_castling_rights : CastleRights
  castle_rights_log : List CastleRights
  fifty_move_counter : Nat
  board_position_counts : List (String × Nat)
  fifty_move_log : List Nat
  board_key_log : List String
  easter_knights : List (Int × Int)
  current_fen : String
deriving DecidableEq, Repr

/-- `getBoardKey`: piece placement plus side to move. -/
def getBoardKey (s : GameState) : String :=
  String.mk (s.board.flatten ++ (if s.white_to_move then ['w'] else ['b']))

/-- Scan the parsed board for the kings, keeping the last occurrence, exactly as
the `__init__` double loop does (a board with no `'K'`/`'k'` leaves the Python
attribute unset; the embedding starts from `(0, 0)`, a case no theorem uses). -/
def scanKings (b : Board) : (Int × Int) × (Int × Int) :=
  let idx := (List.range 8).flatMap (fun r => (List.range 8).map (fun c => (r, c)))
  idx.foldl
    (fun (acc : (Int × Int) × (Int × Int)) rc =>
      let r : Int := rc.1
      let c : Int := rc.2
      if getCell b r c = 'K' then ((r, c), acc.2)
      else if getCell b r c = 'k' then (acc.1, (r, c))
      else acc)
    ((0, 0), (0, 0))

/-- The `while len(parts) < 6` padding loop of `__init__`.
`defaults[len(parts)-2]` uses Python's negative indexing when only the board
field is present (index `-1` picks `'1'`). -/
def padFields (parts : List (List Char)) : List (List Char) :=
  let defaults : List (List Char) := [['-'], ['-'], ['0'], ['1']]
  let rec pad (p : List (List Char)) (fuel : Nat) : List (List Char) :=
    match fuel with
    | 0 => p
    | fuel + 1 =>
        if p.length < 6 then
          let i : Int := (p.length : Int) - 2
          let j : Nat := if i < 0 then (4 + i).toNat else i.toNat
          pad (p ++ [defaults.getD j []]) fuel
        else p
  (pad parts 6).take 6

/-- `GameState.__init__(fen)`.  Only the board and active-color fields are
consumed; every other attribute gets its hard-coded initial value. -/
def gsInit (fen : String) : GameState :=
  let fields := padFields (splitWs fen.data)
  let joined := pyJoin ' ' fields
  let board := fen_to_board joined
  let kings := scanKings board
  let initRights : CastleRights := ⟨true, true, true, true⟩
  let s : GameState :=
    { board := board
      white_to_move := (fields.getD 1 []) = ['w']
      white_king_location := kings.1
      black_king_location := kings.2
      move_log := []
      checkmate := false
      stalemate := false
      in_check := false
      pins := []
      checks := []
      enpassant_possible := none
      enpassant_possible_log := [none]
      current_castling_rights := initRights
      castle_rights_log := [⟨initRights.wks, initRights.bks, initRights.wqs, initRights.bqs⟩]
      fifty_move_counter := 0
      board_position_counts := []
      fifty_move_log := []
      board_key_log := []
      easter_knights := []
      current_fen := "" }
  { s with board_position_counts := dictSet [] (getBoardKey s) 1 }

/-- `updateFiftyMoveCounter(move)`. -/
def updateFiftyMoveCounter (s : GameState) (move : Move) : GameState :=
  let s := { s with fifty_move_log := s.fifty_move_counter :: s.fifty_move_log }
  if move.piece_moved.toLower = 'p' ∨ move.is_capture then
    { s with fifty_move_counter := 0 }
  else
    { s with fifty_move_counter := s.fifty_move_counter + 1 }

/-- `updateRepetition()`. -/
def updateRepetition (s : GameState) : GameState :=
  let key := getBoardKey s
  let s := { s with board_key_log := key :: s.board_key_log }
  if dictContains s.board_position_counts key then
    { s with board_position_counts :=
        dictSet s.board_position_counts key (dictGetD s.board_position_counts key 0 + 1) }
  else
    { s with board_position_counts := dictSet s.board_position_counts key 1 }

/-- `checkThreefoldRepetition()`. -/
def checkThreefoldRepetition (s : GameState) : Bool :=
  s.board_position_counts.any (fun kv => kv.2 ≥ 3)

/-- `insufficientMaterial()`. -/
def insufficientMaterial (s : GameState) : Bool :=
  let pieces := s.board.flatten.filter (fun p => p ≠ '-')
  let non_king := pieces.filter (fun p => p.toUpper ≠ 'K')
  if non_king.isEmpty then true
  else if non_king.length = 1 ∧ (non_king.headD '-').toUpper ∈ ['N', 'B'] then true
  else if non_king.length = 2 ∧ non_king.all (fun p => p.toUpper = 'N') then true
  else false

def cols_to_files (c : Int) : List Char :=
  if c = 0 then ['a'] else if c = 1 then ['b'] else if c = 2 then ['c']
  else if c = 3 then ['d'] else if c = 4 then ['e'] else if c = 5 then ['f']
  else if c = 6 then ['g'] else if c = 7 then ['h'] else []

def rows_to_ranks (r : Int) : List Char :=
  if r = 7 then ['1'] else if r = 6 then ['2'] else if r = 5 then ['3']
  else if r = 4 then ['4'] else if r = 3 then ['5'] else if r = 2 then ['6']
  else if r = 1 then ['7'] else if r = 0 then ['8'] else []

/-- The castling-rights field of `update_fen`. -/
def castleField (cr : CastleRights) : List Char :=
  let t := (if cr.wks then ['K'] else []) ++ (if cr.wqs then ['Q'] else []) ++
           (if cr.bks then ['k'] else []) ++ (if cr.bqs then ['q'] else [])
  if t = [] then ['-'] else t

/-- `update_fen()`: rebuild `current_fen` from the state. -/
def update_fen (s : GameState) : GameState :=
  let board_part := board_to_fen s.board
  let active : List Char := if s.white_to_move then ['w'] else ['b']
  let cr := castleField s.current_castling_rights
  let ep : List Char :=
    match s.enpassant_possible with
    | some rc => cols_to_files rc.2 ++ rows_to_ranks rc.1
    | none => ['-']
  let half := (Nat.repr s.fifty_move_counter).data
  let full := (Nat.repr (s.move_log.length / 2 + 1)).data
  { s with current_fen :=
      String.mk (pyJoin ' ' [board_part, active, cr, ep, half, full]) }

-- ---------------------- Move execution ----------------------

/-- Tail of `makeMove` (lines after the castle branch): easter-knight tracking,
the four log pushes, and the FEN refresh.  The defensive early `return`s inside
the castle branch skip exactly this tail. -/
def makeMoveFinish (s : GameState) (move : Move) : GameState :=
  let s :=
    if move.piece_moved.toUpper = 'N' ∧ (move.start_row, move.start_col) ∈ s.easter_knights then
      let e := s.easter_knights.erase (move.start_row, move.start_col)
      { s with easter_knights :=
          if (move.end_row, move.end_col) ∈ e then e else e ++ [(move.end_row, move.end_col)] }
    else s
  let s := { s with enpassant_possible_log := s.enpassant_possible :: s.enpassant_possible_log }
  let s := { s with castle_rights_log :=
      (⟨s.current_castling_rights.wks, s.current_castling_rights.bks,
        s.current_castling_rights.wqs, s.current_castling_rights.bqs⟩ : CastleRights) ::
        s.castle_rights_log }
  let s := updateFiftyMoveCounter s move
  let s := updateRepetition s
  update_fen s

/-- First block of `makeMove`: piece relocation, move log push, side flip,
king-location cache update, easter-knight capture bookkeeping. -/
def makeMoveBase (s : GameState) (move : Move) : GameState :=
  let b := setCell s.board move.start_row move.start_col '-'
  let b := setCell b move.end_row move.end_col move.piece_moved
  let s := { s with board := b, move_log := move :: s.move_log,
                    white_to_move := !s.white_to_move }
  let s :=
    if move.piece_moved = 'K' then
      { s with white_king_location := (move.end_row, move.end_col) }
    else if move.piece_moved = 'k' then
      { s with black_king_location := (move.end_row, move.end_col) }
    else s
  if (move.end_row, move.end_col) ∈ s.easter_knights then
    { s with easter_knights := s.easter_knights.erase (move.end_row, move.end_col) }
  else s

/-- Pawn-promotion block of `makeMove` (the active, non-commented version: a
knight promotion places the easter-egg code `'L'`/`'l'`). -/
def makeMovePromo (s : GameState) (move : Move) : GameState :=
  if move.is_pawn_promotion then
    let promo := move.promotion_choice.getD 'Q'
    let promoted :=
      if promo.toUpper = 'N' then (if move.piece_moved.isUpper then 'L' else 'l')
      else (if move.piece_moved.isUpper then promo.toUpper else promo.toLower)
    { s with board := setCell s.board move.end_row move.end_col promoted }
  else s

/-- En-passant block of `makeMove`: clear the square behind the landing square,
then recompute `enpassant_possible` (set only on a two-square pawn advance). -/
def makeMoveEp (s : GameState) (move : Move) : GameState :=
  let s :=
    if move.is_enpassant_move then
      { s with board := setCell s.board move.start_row move.end_col '-' }
    else s
  let newEp : Option (Int × Int) :=
    if move.piece_moved.toLower = 'p' ∧ (move.start_row - move.end_row).natAbs = 2 then
      some ((move.start_row + move.end_row) / 2, move.start_col)
    else none
  { s with enpassant_possible := newEp }

/-- `makeMove(move)`: apply a move without validating legality.  Note that the
call to `updateCastleRights` is commented out in the source; `makeMove` only
pushes an unchanged copy of the current rights onto the log. -/
def makeMove (s : GameState) (move : Move) : GameState :=
  let s := makeMoveBase s move
  let s := makeMovePromo s move
  let s := makeMoveEp s move
  if move.is_castle_move then
    if ¬(move.piece_moved = 'K' ∨ move.piece_moved = 'k') then
      s  -- defensive warning + early return: tail mutations skipped
    else
      let dr := move.end_col - move.start_col
      if dr = 2 ∨ dr = -2 then
        let src_rook_col := if dr = 2 then move.end_col + 1 else move.end_col - 2
        let dst_rook_col := if dr = 2 then move.end_col - 1 else move.end_col + 1
        let r := move.end_row
        if ¬(0 ≤ r ∧ r < 8 ∧ 0 ≤ src_rook_col ∧ src_rook_col < 8 ∧
             0 ≤ dst_rook_col ∧ dst_rook_col < 8) then
          s  -- defensive bounds error + early return
        else
          let b := setCell s.board r dst_rook_col (getCell s.board r src_rook_col)
          let b := setCell b r src_rook_col '-'
          makeMoveFinish { s with board := b } move
      else
        s  -- defensive warning + early return (castle flag but not a ±2 king move)
  else
    makeMoveFinish s move

/-- Repetition-count reversal of `undoMove` (pop the last key, decrement or
drop its count). -/
def undoRepStep (s : GameState) : GameState :=
  match s.board_key_log with
  | [] => s
  | last_key :: rest =>
      let cnt := dictGetD s.board_position_counts last_key 0
      let counts :=
        if cnt ≤ 1 then dictPop s.board_position_counts last_key
        else dictSet s.board_position_counts last_key (cnt - 1)
      { s with board_key_log := rest, board_position_counts := counts }

/-- Fifty-move-counter reversal of `undoMove`. -/
def undoFiftyStep (s : GameState) : GameState :=
  match s.fifty_move_log with
  | [] => s
  | prev :: rest => { s with fifty_move_counter := prev, fifty_move_log := rest }

/-- Board / side / king-location reversal of `undoMove`, including the
en-passant board fix-up.  (`move.piece_captured if move.piece_captured else
'-'` always takes the first branch: the field is a non-empty string.) -/
def undoBoardStep (s : GameState) (move : Move) : GameState :=
  let b := setCell s.board move.start_row move.start_col move.piece_moved
  let b := setCell b move.end_row move.end_col move.piece_captured
  let s := { s with board := b, white_to_move := !s.white_to_move }
  let s :=
    if move.piece_moved = 'K' then
      { s with white_king_location := (move.start_row, move.start_col) }
    else if move.piece_moved = 'k' then
      { s with black_king_location := (move.start_row, move.start_col) }
    else s
  if move.is_enpassant_move then
    let b := setCell s.board move.end_row move.end_col '-'
    { s with board := setCell b move.start_row move.end_col move.piece_captured }
  else s

/-- Log reversal of `undoMove`: pop both the en-passant and the castling-rights
log and reinstate the new top.  Python raises `IndexError` when a log is empty
(`pop()`/`[-1]`); the embedding keeps the current value on that unreachable
path. -/
def undoLogStep (s : GameState) : GameState :=
  let s :=
    let l := s.enpassant_possible_log.tail
    { s with enpassant_possible_log := l,
             enpassant_possible := l.headD s.enpassant_possible }
  let l := s.castle_rights_log.tail
  { s with castle_rights_log := l,
           current_castling_rights := l.headD s.current_castling_rights }

/-- Rook-slide reversal of `undoMove` for genuine two-square king castles. -/
def undoCastleStep (s : GameState) (move : Move) : GameState :=
  if move.is_castle_move ∧ (move.piece_moved = 'K' ∨ move.piece_moved = 'k') then
    let dr := move.end_col - move.start_col
    let r := move.end_row
    if dr = 2 ∨ dr = -2 then
      let src := if dr = 2 then move.end_col - 1 else move.end_col + 1
      let dst := if dr = 2 then move.end_col + 1 else move.end_col - 2
      if 0 ≤ r ∧ r < 8 ∧ 0 ≤ src ∧ src < 8 ∧ 0 ≤ dst ∧ dst < 8 then
        let b := setCell s.board r dst (getCell s.board r src)
        { s with board := setCell b r src '-' }
      else s  -- defensive bounds error path
    else s  -- defensive warning path
  else s

/-- `undoMove()`: reverse the last move; safe no-op on an empty move log. -/
def undoMove (s : GameState) : GameState :=
  if s.move_log.isEmpty then s
  else
    let s := undoRepStep s
    let s := undoFiftyStep s
    match s.move_log with
    | [] => s
    | move :: rest =>
        let s := { s with move_log := rest }
        let s := undoBoardStep s move
        let s := undoLogStep s
        let s := undoCastleStep s move
        let s := { s with checkmate := false, stalemate := false }
        update_fen s

/-- `updateCastleRights(move)`: the revocation helper.  It is defined (and
documented) in the source but its call site in `makeMove` is commented out. -/
def updateCastleRights (s : GameState) (move : Move) : GameState :=
  let cr := s.current_castling_rights
  let cr := if move.piece_captured = 'R' ∧ move.end_row = 7 ∧ move.end_col = 0 then
              { cr with wqs := false } else cr
  let cr := if move.piece_captured = 'R' ∧ move.end_row = 7 ∧ move.end_col = 7 then
              { cr with wks := false } else cr
  let cr := if move.piece_captured = 'r' ∧ move.end_row = 0 ∧ move.end_col = 0 then
              { cr with bqs := false } else cr
  let cr := if move.piece_captured = 'r' ∧ move.end_row = 0 ∧ move.end_col = 7 then
              { cr with bks := false } else cr
  let cr := if move.piece_moved = 'K' then { cr with wqs := false, wks := false }
            else if move.piece_moved = 'k' then { cr with bqs := false, bks := false }
            else cr
  let cr := if move.piece_moved = 'R' then
              (if move.start_row = 7 ∧ move.start_col = 0 then { cr with wqs := false }
               else if move.start_row = 7 ∧ move.start_col = 7 then { cr with wks := false }
               else cr)
            else cr
  let cr := if move.piece_moved = 'r' then
              (if move.start_row = 0 ∧ move.start_col = 0 then { cr with bqs := false }
               else if move.start_row = 0 ∧ move.start_col = 7 then { cr with bks := false }
               else cr)
            else cr
  { s with current_castling_rights := cr }

-- ---------------------- Pins & checks analyzer ----------------------

/-- Inner ray loop of `checkForPinsAndChecks` for one direction `(dr, dc)` with
index `j`: returns pins to record, checks to record, and the in-check flag.
`fuel` counts the remaining iterations of `for i in range(1, 8)`. -/
def scanDirAux (b : Board) (wtm : Bool) (sr sc : Int) (j : Nat) (dr dc : Int) :
    Nat → Int → Option (Int × Int × Int × Int) →
    List (Int × Int × Int × Int) × List (Int × Int × Int × Int) × Bool
  | 0, _, _ => ([], [], false)
  | fuel + 1, i, possiblePin =>
      let er := sr + dr * i
      let ec := sc + dc * i
      if 0 ≤ er ∧ er ≤ 7 ∧ 0 ≤ ec ∧ ec ≤ 7 then
        let endPiece := getCell b er ec
        if endPiece ≠ '-' ∧ ((endPiece.isUpper ∧ wtm) ∨ (endPiece.isLower ∧ ¬wtm)) ∧
            endPiece.toUpper ≠ 'K' then
          match possiblePin with
          | none => scanDirAux b wtm sr sc j dr dc fuel (i + 1) (some (er, ec, dr, dc))
          | some _ => ([], [], false)
        else if endPiece ≠ '-' ∧ ((endPiece.isUpper ∧ ¬wtm) ∨ (endPiece.isLower ∧ wtm)) then
          let enemyType := endPiece.toUpper
          let enemyWhite := !wtm
          if (j ≤ 3 ∧ enemyType = 'R') ∨ (4 ≤ j ∧ j ≤ 7 ∧ enemyType = 'B') ∨
             (i = 1 ∧ enemyType = 'P' ∧
               ((enemyWhite ∧ 6 ≤ j ∧ j ≤ 7) ∨ (¬enemyWhite ∧ 4 ≤ j ∧ j ≤ 5))) ∨
             enemyType = 'Q' ∨ (i = 1 ∧ enemyType = 'K') then
            match possiblePin with
            | none => ([], [(er, ec, dr, dc)], true)
            | some p => ([p], [], false)
          else ([], [], false)
        else scanDirAux b wtm sr sc j dr dc fuel (i + 1) possiblePin
      else ([], [], false)

/-- `checkForPinsAndChecks()`: returns `(in_check, pins, checks)`. -/
def checkForPinsAndChecks (s : GameState) :
    Bool × List (Int × Int × Int × Int) × List (Int × Int × Int × Int) :=
  let start := if s.white_to_move then s.white_king_location else s.black_king_location
  let sr := start.1
  let sc := start.2
  let directions : List (Int × Int) :=
    [(-1, 0), (0, -1), (1, 0), (0, 1), (-1, -1), (-1, 1), (1, -1), (1, 1)]
  let core := directions.enum.foldl
    (fun (acc : List (Int × Int × Int × Int) × List (Int × Int × Int × Int) × Bool) jd =>
      let res := scanDirAux s.board s.white_to_move sr sc jd.1 jd.2.1 jd.2.2 7 1 none
      (acc.1 ++ res.1, acc.2.1 ++ res.2.1, acc.2.2 || res.2.2))
    ([], [], false)
  let knight_moves : List (Int × Int) :=
    [(-2, -1), (-2, 1), (-1, 2), (1, 2), (2, -1), (2, 1), (-1, -2), (1, -2)]
  let enemyWhite := !s.white_to_move
  let res := knight_moves.foldl
    (fun (acc : List (Int × Int × Int × Int) × Bool) m =>
      let er := sr + m.1
      let ec := sc + m.2
      if 0 ≤ er ∧ er ≤ 7 ∧ 0 ≤ ec ∧ ec ≤ 7 then
        let ep := getCell s.board er ec
        if ep ≠ '-' ∧ ((ep.isUpper ∧ enemyWhite) ∨ (ep.isLower ∧ ¬enemyWhite)) ∧
            ep.toUpper = 'N' then
          (acc.1 ++ [(er, ec, m.1, m.2)], true)
        else acc
      else acc)
    (core.2.1, core.2.2)
  (res.2, core.1, res.1)

-- ---------------------- Per-piece pseudo generators ----------------------

/-- The `for i in range(len(self.pins)-1, -1, -1)` prologue: the first pin found
scanning from the end of the list whose square matches `(row, col)`. -/
def findPin (pins : List (Int × Int × Int × Int)) (row col : Int) :
    Option (Int × Int × Int × Int) :=
  pins.reverse.find? (fun p => p.1 = row ∧ p.2.1 = col)

def pyRange (a b : Int) : List Int := (List.range (b - a).toNat).map (fun i => a + i)

def pyRangeDown (a b : Int) : List Int := (List.range (a - b).toNat).map (fun i => a - i)

/-- The en-passant discovered-check scan shared by the left/right capture cases:
returns `(attacking_piece, blocking_piece)`. -/
def epRankScan (b : Board) (enemyWhite : Bool) (row : Int)
    (insideR outsideR : List Int) : Bool × Bool :=
  let blocking := insideR.any (fun i => getCell b row i ≠ '-')
  outsideR.foldl
    (fun (ab : Bool × Bool) i =>
      let sq := getCell b row i
      if sq ≠ '-' then
        if ((sq.isUpper ∧ enemyWhite) ∨ (sq.isLower ∧ ¬enemyWhite)) ∧
            (sq.toUpper = 'R' ∨ sq.toUpper = 'Q') then
          (true, ab.2)
        else (ab.1, true)
      else ab)
    (false, blocking)

/-- The pawn-advance block of `getPawnMoves` (single and double pushes). -/
def pawnForwardMoves (b : Board) (row col move_amount start_row : Int)
    (piece_pinned : Bool) (pinDir : Option (Int × Int)) : List Move :=
  if getCell b (row + move_amount) col = '-' then
    if ¬piece_pinned ∨ pinDir = some (move_amount, 0) then
      let one := [mkMove (row, col) (row + move_amount, col) b false false]
      if row = start_row ∧ getCell b (row + 2 * move_amount) col = '-' then
        one ++ [mkMove (row, col) (row + 2 * move_amount, col) b false false]
      else one
    else []
  else []

/-- The capture-left block of `getPawnMoves` (plain capture, then en passant
with the discovered-check rank scan). -/
def pawnCaptureLeft (b : Board) (wtm : Bool) (epSq : Option (Int × Int))
    (enemyWhite : Bool) (king_row king_col : Int) (row col move_amount : Int)
    (piece_pinned : Bool) (pinDir : Option (Int × Int)) : List Move :=
  if col - 1 ≥ 0 then
    let cap :=
      if ¬piece_pinned ∨ pinDir = some (move_amount, -1) then
        let end_piece := getCell b (row + move_amount) (col - 1)
        if end_piece ≠ '-' ∧ ((end_piece.isLower ∧ wtm) ∨ (end_piece.isUpper ∧ ¬wtm)) then
          [mkMove (row, col) (row + move_amount, col - 1) b false false]
        else []
      else []
    let ep :=
      if some (row + move_amount, col - 1) = epSq then
        let ab :=
          if king_row = row then
            if king_col < col then
              epRankScan b enemyWhite row (pyRange (king_col + 1) (col - 1))
                (pyRange (col + 1) 8)
            else
              epRankScan b enemyWhite row (pyRangeDown (king_col - 1) col)
                (pyRangeDown (col - 2) (-1))
          else (false, false)
        if ¬ab.1 ∨ ab.2 then
          [mkMove (row, col) (row + move_amount, col - 1) b true false]
        else []
      else []
    cap ++ ep
  else []

/-- The capture-right block of `getPawnMoves`. -/
def pawnCaptureRight (b : Board) (wtm : Bool) (epSq : Option (Int × Int))
    (enemyWhite : Bool) (king_row king_col : Int) (row col move_amount : Int)
    (piece_pinned : Bool) (pinDir : Option (Int × Int)) : List Move :=
  if col + 1 ≤ 7 then
    let cap :=
      if ¬piece_pinned ∨ pinDir = some (move_amount, 1) then
        let end_piece := getCell b (row + move_amount) (col + 1)
        if end_piece ≠ '-' ∧ ((end_piece.isLower ∧ wtm) ∨ (end_piece.isUpper ∧ ¬wtm)) then
          [mkMove (row, col) (row + move_amount, col + 1) b false false]
        else []
      else []
    let ep :=
      if some (row + move_amount, col + 1) = epSq then
        let ab :=
          if king_row = row then
            if king_col < col then
              epRankScan b enemyWhite row (pyRange (king_col + 1) col)
                (pyRange (col + 2) 8)
            else
              epRankScan b enemyWhite row (pyRangeDown (king_col - 1) (col + 1))
                (pyRangeDown (col - 1) (-1))
          else (false, false)
        if ¬ab.1 ∨ ab.2 then
          [mkMove (row, col) (row + move_amount, col + 1) b true false]
        else []
      else []
    cap ++ ep
  else []

/-- `getPawnMoves(row, col, moves)`.  The returned state carries the pin-list
mutation (`self.pins.remove`). -/
def getPawnMoves (s : GameState) (row col : Int) : List Move × GameState :=
  let pinInfo := findPin s.pins row col
  let s2 := match pinInfo with
            | some p => { s with pins := s.pins.erase p }
            | none => s
  let piece_pinned := pinInfo.isSome
  let pinDir : Option (Int × Int) := pinInfo.map (fun p => (p.2.2.1, p.2.2.2))
  let move_amount : Int := if s2.white_to_move then -1 else 1
  let start_row : Int := if s2.white_to_move then 6 else 1
  let enemyWhite : Bool := !s2.white_to_move
  let king := if s2.white_to_move then s2.white_king_location else s2.black_king_location
  let ms :=
    pawnForwardMoves s2.board row col move_amount start_row piece_pinned pinDir ++
    pawnCaptureLeft s2.board s2.white_to_move s2.enpassant_possible enemyWhite
      king.1 king.2 row col move_amount piece_pinned pinDir ++
    pawnCaptureRight s2.board s2.white_to_move s2.enpassant_possible enemyWhite
      king.1 king.2 row col move_amount piece_pinned pinDir
  (ms, s2)

/-- Sliding-ray inner loop shared by rook and bishop generation.  `allowed` is
the pin-compatibility test (constant over the ray); when it fails the Python
loop just skips every iteration without appending. -/
def slideRayAux (b : Board) (enemyWhite : Bool) (row col dr dc : Int) (allowed : Bool) :
    Nat → Int → List Move
  | 0, _ => []
  | fuel + 1, i =>
      let er := row + dr * i
      let ec := col + dc * i
      if 0 ≤ er ∧ er ≤ 7 ∧ 0 ≤ ec ∧ ec ≤ 7 then
        if allowed then
          let end_piece := getCell b er ec
          if end_piece = '-' then
            mkMove (row, col) (er, ec) b false false ::
              slideRayAux b enemyWhite row col dr dc allowed fuel (i + 1)
          else if (if enemyWhite then end_piece.isUpper else end_piece.isLower) then
            [mkMove (row, col) (er, ec) b false false]
          else []
        else slideRayAux b enemyWhite row col dr dc allowed fuel (i + 1)
      else []

/-- `getRookMoves(row, col, moves)`; a pinned queen's pin entry is not removed
here (it is removed by the bishop pass of `getQueenMoves`). -/
def getRookMoves (s : GameState) (row col : Int) : List Move × GameState :=
  let pinInfo := findPin s.pins row col
  let s := match pinInfo with
           | some p =>
               if (getCell s.board row col).toUpper ≠ 'Q' then
                 { s with pins := s.pins.erase p }
               else s
           | none => s
  let piece_pinned := pinInfo.isSome
  let pinDir : Option (Int × Int) := pinInfo.map (fun p => (p.2.2.1, p.2.2.2))
  let enemyWhite : Bool := !s.white_to_move
  let directions : List (Int × Int) := [(-1, 0), (0, -1), (1, 0), (0, 1)]
  let ms := directions.foldl
    (fun acc d =>
      let allowed := ¬piece_pinned ∨ pinDir = some d ∨ pinDir = some (-d.1, -d.2)
      acc ++ slideRayAux s.board enemyWhite row col d.1 d.2 allowed 7 1)
    []
  (ms, s)

/-- `getKnightMoves(row, col, moves)`. -/
def getKnightMoves (s : GameState) (row col : Int) : List Move × GameState :=
  let pinInfo := findPin s.pins row col
  let s := match pinInfo with
           | some p => { s with pins := s.pins.erase p }
           | none => s
  let piece_pinned := pinInfo.isSome
  let knight_moves : List (Int × Int) :=
    [(-2, -1), (-2, 1), (-1, 2), (1, 2), (2, -1), (2, 1), (-1, -2), (1, -2)]
  let ms := knight_moves.foldl
    (fun acc off =>
      let er := row + off.1
      let ec := col + off.2
      if 0 ≤ er ∧ er ≤ 7 ∧ 0 ≤ ec ∧ ec ≤ 7 then
        if ¬piece_pinned then
          let end_piece := getCell s.board er ec
          if end_piece = '-' ∨ ((end_piece.isUpper ∧ ¬s.white_to_move) ∨
              (end_piece.isLower ∧ s.white_to_move)) then
            acc ++ [mkMove (row, col) (er, ec) s.board false false]
          else acc
        else acc
      else acc)
    []
  (ms, s)

/-- `getBishopMoves(row, col, moves)`. -/
def getBishopMoves (s : GameState) (row col : Int) : List Move × GameState :=
  let pinInfo := findPin s.pins row col
  let s := match pinInfo with
           | some p => { s with pins := s.pins.erase p }
           | none => s
  let piece_pinned := pinInfo.isSome
  let pinDir : Option (Int × Int) := pinInfo.map (fun p => (p.2.2.1, p.2.2.2))
  let enemyWhite : Bool := !s.white_to_move
  let directions : List (Int × Int) := [(-1, -1), (-1, 1), (1, 1), (1, -1)]
  let ms := directions.foldl
    (fun acc d =>
      let allowed := ¬piece_pinned ∨ pinDir = some d ∨ pinDir = some (-d.1, -d.2)
      acc ++ slideRayAux s.board enemyWhite row col d.1 d.2 allowed 7 1)
    []
  (ms, s)

/-- `getQueenMoves(row, col, moves)`: bishop pass then rook pass. -/
def getQueenMoves (s : GameState) (row col : Int) : List Move × GameState :=
  let r1 := getBishopMoves s row col
  let r2 := getRookMoves r1.2 row col
  (r1.1 ++ r2.1, r2.2)

/-- One candidate square of `getKingMoves`: temporarily relocate the king,
probe `checkForPinsAndChecks`, put the king back on `(row, col)`. -/
def kingStep (row col : Int) (acc : List Move × GameState) (off : Int × Int) :
    List Move × GameState :=
  let ms := acc.1
  let s := acc.2
  let er := row + off.1
  let ec := col + off.2
  if 0 ≤ er ∧ er ≤ 7 ∧ 0 ≤ ec ∧ ec ≤ 7 then
    let end_piece := getCell s.board er ec
    if end_piece = '-' ∨ ((end_piece.isUpper ∧ ¬s.white_to_move) ∨
        (end_piece.isLower ∧ s.white_to_move)) then
      let s := if s.white_to_move then { s with white_king_location := (er, ec) }
               else { s with black_king_location := (er, ec) }
      let probe := checkForPinsAndChecks s
      let ms := if ¬probe.1 then ms ++ [mkMove (row, col) (er, ec) s.board false false]
                else ms
      let s := if s.white_to_move then { s with white_king_location := (row, col) }
               else { s with black_king_location := (row, col) }
      (ms, s)
    else (ms, s)
  else (ms, s)

/-- `getKingMoves(row, col, moves)`. -/
def getKingMoves (s : GameState) (row col : Int) : List Move × GameState :=
  let row_moves : List Int := [-1, -1, -1, 0, 0, 1, 1, 1]
  let col_moves : List Int := [-1, 0, 1, -1, 1, -1, 0, 1]
  (row_moves.zip col_moves).foldl (kingStep row col) ([], s)

/-- The `moveFunctions` dispatch table (`'l'` reuses the knight generator). -/
def pieceMoves (s : GameState) (key : Char) (r c : Int) : List Move × GameState :=
  if key = 'p' then getPawnMoves s r c
  else if key = 'r' then getRookMoves s r c
  else if key = 'n' then getKnightMoves s r c
  else if key = 'b' then getBishopMoves s r c
  else if key = 'q' then getQueenMoves s r c
  else if key = 'k' then getKingMoves s r c
  else if key = 'l' then getKnightMoves s r c
  else ([], s)

def allSquares : List (Int × Int) :=
  (List.range 8).flatMap (fun r => (List.range 8).map (fun c => ((r : Int), (c : Int))))

/-- One square of `getAllPossibleMoves`: dispatch on the piece found there. -/
def genStep (acc : List Move × GameState) (rc : Int × Int) : List Move × GameState :=
  let ms := acc.1
  let s := acc.2
  let piece := getCell s.board rc.1 rc.2
  if piece ≠ '-' ∧ ((piece.isUpper ∧ s.white_to_move) ∨
      (piece.isLower ∧ ¬s.white_to_move)) then
    let res := pieceMoves s piece.toLower rc.1 rc.2
    (ms ++ res.1, res.2)
  else (ms, s)

/-- `getAllPossibleMoves()`: pseudo-legal generation over every own piece. -/
def getAllPossibleMoves (s : GameState) : List Move × GameState :=
  allSquares.foldl genStep ([], s)

-- ---------------------- Attack probes ----------------------

/-- `squareUnderAttack(row, col)`: flip the side, generate, flip back. -/
def squareUnderAttack (s : GameState) (row col : Int) : Bool × GameState :=
  let s := { s with white_to_move := !s.white_to_move }
  let res := getAllPossibleMoves s
  let s := { res.2 with white_to_move := !res.2.white_to_move }
  (res.1.any (fun m => m.end_row = row ∧ m.end_col = col), s)

/-- `inCheck()`. -/
def inCheck (s : GameState) : Bool × GameState :=
  if s.white_to_move then
    squareUnderAttack s s.white_king_location.1 s.white_king_location.2
  else
    squareUnderAttack s s.black_king_location.1 s.black_king_location.2

-- ---------------------- Castling generation ----------------------

/-- The short-circuited `or` over consecutive `squareUnderAttack` probes used
by the castle generators (later probes run only if earlier ones return false),
threading the state through each probe. -/
def castlePathAttacked (s : GameState) (row : Int) : List Int → Bool × GameState
  | [] => (false, s)
  | c :: rest =>
      let p := squareUnderAttack s row c
      if p.1 then (true, p.2)
      else castlePathAttacked p.2 row rest

/-- Shared tail of the four castle-generation blocks: probe the king path with
the short-circuited attack scan, and on success append the castle move (built
from the board, which the probes do not modify). -/
def castleSideResult (s : GameState) (row : Int) (cols : List Int) (endCol : Int) :
    List Move × GameState :=
  let pr := castlePathAttacked s row cols
  if pr.1 then ([], pr.2)
  else ([mkMove (row, 4) (row, endCol) pr.2.board false true], pr.2)

/-- `getKingsideCastleMoves(row, col, moves)`. -/
def getKingsideCastleMoves (s : GameState) (row col : Int) : List Move × GameState :=
  if s.white_to_move then
    if row ≠ 7 ∨ col ≠ 4 then ([], s)
    else if getCell s.board 7 7 ≠ 'R' then ([], s)
    else if ¬s.current_castling_rights.wks then ([], s)
    else if getCell s.board 7 5 ≠ '-' ∨ getCell s.board 7 6 ≠ '-' then ([], s)
    else castleSideResult s 7 [4, 5, 6] 6
  else
    if row ≠ 0 ∨ col ≠ 4 then ([], s)
    else if getCell s.board 0 7 ≠ 'r' then ([], s)
    else if ¬s.current_castling_rights.bks then ([], s)
    else if getCell s.board 0 5 ≠ '-' ∨ getCell s.board 0 6 ≠ '-' then ([], s)
    else castleSideResult s 0 [4, 5, 6] 6

/-- `getQueensideCastleMoves(row, col, moves)`. -/
def getQueensideCastleMoves (s : GameState) (row col : Int) : List Move × GameState :=
  if s.white_to_move then
    if row ≠ 7 ∨ col ≠ 4 then ([], s)
    else if getCell s.board 7 0 ≠ 'R' then ([], s)
    else if ¬s.current_castling_rights.wqs then ([], s)
    else if getCell s.board 7 1 ≠ '-' ∨ getCell s.board 7 2 ≠ '-' ∨
            getCell s.board 7 3 ≠ '-' then ([], s)
    else castleSideResult s 7 [4, 3, 2] 2
  else
    if row ≠ 0 ∨ col ≠ 4 then ([], s)
    else if getCell s.board 0 0 ≠ 'r' then ([], s)
    else if ¬s.current_castling_rights.bqs then ([], s)
    else if getCell s.board 0 1 ≠ '-' ∨ getCell s.board 0 2 ≠ '-' ∨
            getCell s.board 0 3 ≠ '-' then ([], s)
    else castleSideResult s 0 [4, 3, 2] 2

/-- `getCastleMoves(row, col, moves)`. -/
def getCastleMoves (s : GameState) (row col : Int) : List Move × GameState :=
  let pa := squareUnderAttack s row col
  if pa.1 then ([], pa.2)
  else
    let s := pa.2
    let ks :=
      if (s.white_to_move ∧ s.current_castling_rights.wks) ∨
         (¬s.white_to_move ∧ s.current_castling_rights.bks) then
        getKingsideCastleMoves s row col
      else ([], s)
    let s := ks.2
    let qs :=
      if (s.white_to_move ∧ s.current_castling_rights.wqs) ∨
         (¬s.white_to_move ∧ s.current_castling_rights.bqs) then
        getQueensideCastleMoves s row col
      else ([], s)
    (ks.1 ++ qs.1, qs.2)

-- ---------------------- Legal move list ----------------------

/-- Squares that block or capture a single ray check: the loop building
`valid_squares` (walk from the king toward the checker, inclusive). -/
def validSquaresAux (kr kc d1 d2 cr cc : Int) : Nat → Int → List (Int × Int)
  | 0, _ => []
  | fuel + 1, i =>
      let vs := (kr + d1 * i, kc + d2 * i)
      if vs.1 = cr ∧ vs.2 = cc then [vs]
      else vs :: validSquaresAux kr kc d1 d2 cr cc fuel (i + 1)

/-- The backwards `for i in range(len(moves)-1, -1, -1)` removal loop of
`getValidMoves`: drop every non-king move that does not land on a blocking or
capturing square.  `list.remove` removes the first element `__eq__`-equal to
`moves[i]`, i.e. the first move with the same `moveID`. -/
def filterChecksLoop (validSquares : List (Int × Int)) :
    List Move → Nat → List Move
  | ms, 0 => ms
  | ms, n + 1 =>
      let ms :=
        match ms.get? n with
        | none => ms
        | some m =>
            if m.piece_moved.toUpper ≠ 'K' ∧ ¬((m.end_row, m.end_col) ∈ validSquares) then
              ms.erase m
            else ms
      filterChecksLoop validSquares ms n

/-- Lines 472–518 of `getValidMoves`: pins/checks refresh, pseudo-move
generation, check resolution, castling, and the defensive king-capture filter
(everything before the terminal/draw classification). -/
def getValidMovesCore (s : GameState) : List Move × GameState :=
  let pcc := checkForPinsAndChecks s
  let s := { s with in_check := pcc.1, pins := pcc.2.1, checks := pcc.2.2 }
  let king := if s.white_to_move then s.white_king_location else s.black_king_location
  let king_row := king.1
  let king_col := king.2
  let res :=
    if s.in_check then
      if s.checks.length = 1 then
        let gen := getAllPossibleMoves s
        let s := gen.2
        let check := s.checks.headD (0, 0, 0, 0)
        let check_row := check.1
        let check_col := check.2.1
        let piece_checking := getCell s.board check_row check_col
        let valid_squares :=
          if piece_checking.toUpper = 'N' then [(check_row, check_col)]
          else validSquaresAux king_row king_col check.2.2.1 check.2.2.2 check_row check_col 7 1
        (filterChecksLoop valid_squares gen.1 gen.1.length, s)
      else
        getKingMoves s king_row king_col
    else
      let gen := getAllPossibleMoves s
      let s := gen.2
      let cas :=
        if s.white_to_move then
          getCastleMoves s s.white_king_location.1 s.white_king_location.2
        else
          getCastleMoves s s.black_king_location.1 s.black_king_location.2
      (gen.1 ++ cas.1, cas.2)
  (res.1.filter (fun m => m.piece_captured.toUpper ≠ 'K'), res.2)

/-- `getValidMoves()`: legal move list plus terminal/draw classification.  Each
return path restores the castling rights saved on entry (`temp_castle_rights`). -/
def getValidMoves (s : GameState) : List Move × GameState :=
  let temp : CastleRights :=
    ⟨s.current_castling_rights.wks, s.current_castling_rights.bks,
     s.current_castling_rights.wqs, s.current_castling_rights.bqs⟩
  let core := getValidMovesCore s
  let ms := core.1
  let s1 := core.2
  if ms.length = 0 then
    let probe := inCheck s1
    let s2 := if probe.1 then { probe.2 with checkmate := true }
              else { probe.2 with stalemate := true }
    ([], { s2 with current_castling_rights := temp })
  else
    let s2 := { s1 with checkmate := false, stalemate := false }
    if insufficientMaterial s2 then
      ([], { s2 with stalemate := true, current_castling_rights := temp })
    else if checkThreefoldRepetition s2 then
      ([], { s2 with stalemate := true, current_castling_rights := temp })
    else if s2.fifty_move_counter ≥ 100 then
      ([], { s2 with stalemate := true, current_castling_rights := temp })
    else
      (ms, { s2 with current_castling_rights := temp })

-- ---------------------- EVA search layer (src/EVA.py) ----------------------

/-- `sum(1 for row in gs.board for sq in row if sq != '-')`. -/
def pieceCount (s : GameState) : Nat :=
  (s.board.flatten.filter (fun sq => sq ≠ '-')).length

/-- The endgame-deepening block of `findBestMove`: the requested depth is
adjusted only when it equals the default 4. -/
def findBestMoveDepth (s : GameState) (depth : Int) : Int :=
  if depth = 4 then
    if pieceCount s ≤ 4 then 8
    else if pieceCount s ≤ 7 then 6
    else depth
  else depth

/-- The mate-in-one pre-scan of `findBestMove` (EVA.py lines 146–152): for each
root move in order, apply it; if the opponent has no legal reply and is in
check, undo and deliver that move, otherwise undo and continue. -/
def mateInOnePrescan (gs : GameState) : List Move → Option Move × GameState
  | [] => (none, gs)
  | m :: rest =>
      let s1 := makeMove gs m
      let res := getValidMoves s1
      if res.1.isEmpty then
        let probe := inCheck res.2
        if probe.1 then (some m, undoMove probe.2)
        else mateInOnePrescan (undoMove probe.2) rest
      else mateInOnePrescan (undoMove res.2) rest

/-- The move `findBestMove` delivers through the result queue.  The iterative
deepening / PVS / transposition phase after the pre-scan manipulates IEEE
floats and process-global mutable tables; it is abstracted by the
`deepResult` parameter, which is only reached when the pre-scan finds no
mate in one (the pre-scan `return`s immediately on success, bypassing all
further search; it does not depend on the requested depth). -/
def findBestMoveResult (gs : GameState) (moves : List Move) (depth : Int)
    (deepResult : Option Move) : Option Move :=
  let _adjustedDepth := findBestMoveDepth gs depth
  match (mateInOnePrescan gs moves).1 with
  | some m => some m
  | none => deepResult

-- =================== Shared helper lemmas ===================

theorem makeMoveBase_rights (s : GameState) (m : Move) :
    (makeMoveBase s m).current_castling_rights = s.current_castling_rights := by
  unfold makeMoveBase; dsimp only; split_ifs <;> rfl

theorem makeMovePromo_rights (s : GameState) (m : Move) :
    (makeMovePromo s m).current_castling_rights = s.current_castling_rights := by
  unfold makeMovePromo; dsimp only; split_ifs <;> rfl

theorem makeMoveEp_rights (s : GameState) (m : Move) :
    (makeMoveEp s m).current_castling_rights = s.current_castling_rights := by
  unfold makeMoveEp; dsimp only; split_ifs <;> rfl

theorem updateFifty_rights (s : GameState) (m : Move) :
    (updateFiftyMoveCounter s m).current_castling_rights = s.current_castling_rights := by
  unfold updateFiftyMoveCounter; dsimp only; split_ifs <;> rfl

theorem updateRepetition_rights (s : GameState) :
    (updateRepetition s).current_castling_rights = s.current_castling_rights := by
  unfold updateRepetition; dsimp only; split_ifs <;> rfl

theorem update_fen_rights (s : GameState) :
    (update_fen s).current_castling_rights = s.current_castling_rights := by
  unfold update_fen; dsimp only

theorem makeMoveFinish_rights (s : GameState) (m : Move) :
    (makeMoveFinish s m).current_castling_rights = s.current_castling_rights := by
  unfold makeMoveFinish; dsimp only
  rw [update_fen_rights, updateRepetition_rights, updateFifty_rights]
  split_ifs <;> rfl

/-- `makeMove` never changes the live castling rights (on any input, including
the defensive early-return paths): the revocation call site is commented out. -/
theorem makeMove_preserves_rights (s : GameState) (m : Move) :
    (makeMove s m).current_castling_rights = s.current_castling_rights := by
  unfold makeMove; dsimp only
  split_ifs <;>
    first
      | rfl
      | simp only [makeMoveFinish_rights, makeMoveEp_rights, makeMovePromo_rights,
          makeMoveBase_rights]

theorem makeMoveBase_log (s : GameState) (m : Move) :
    (makeMoveBase s m).castle_rights_log = s.castle_rights_log := by
  unfold makeMoveBase; dsimp only; split_ifs <;> rfl

theorem makeMovePromo_log (s : GameState) (m : Move) :
    (makeMovePromo s m).castle_rights_log = s.castle_rights_log := by
  unfold makeMovePromo; dsimp only; split_ifs <;> rfl

theorem makeMoveEp_log (s : GameState) (m : Move) :
    (makeMoveEp s m).castle_rights_log = s.castle_rights_log := by
  unfold makeMoveEp; dsimp only; split_ifs <;> rfl

theorem updateFifty_log (s : GameState) (m : Move) :
    (updateFiftyMoveCounter s m).castle_rights_log = s.castle_rights_log := by
  unfold updateFiftyMoveCounter; dsimp only; split_ifs <;> rfl

theorem updateRepetition_log (s : GameState) :
    (updateRepetition s).castle_rights_log = s.castle_rights_log := by
  unfold updateRepetition; dsimp only; split_ifs <;> rfl

theorem update_fen_log (s : GameState) :
    (update_fen s).castle_rights_log = s.castle_rights_log := by
  unfold update_fen; dsimp only

/-- `makeMoveFinish` pushes an unchanged copy of the current rights. -/
theorem makeMoveFinish_log (s : GameState) (m : Move) :
    (makeMoveFinish s m).castle_rights_log =
      (⟨s.current_castling_rights.wks, s.current_castling_rights.bks,
        s.current_castling_rights.wqs, s.current_castling_rights.bqs⟩ : CastleRights) ::
        s.castle_rights_log := by
  unfold makeMoveFinish; dsimp only
  rw [update_fen_log, updateRepetition_log, updateFifty_log]
  split_ifs <;> rfl

/-- `t` agrees with `s` on every field except possibly `pins` and the two
cached king locations — the only `GameState` fields the pseudo-move generators
write. -/
def genOnly (s t : GameState) : Prop :=
  t = { s with pins := t.pins, white_king_location := t.white_king_location,
               black_king_location := t.black_king_location }

theorem genOnly_refl (s : GameState) : genOnly s s := rfl

theorem genOnly_trans {s t u : GameState} (h1 : genOnly s t) (h2 : genOnly t u) :
    genOnly s u := by
  unfold genOnly at *
  rw [h2, h1]

theorem getPawnMoves_genOnly (s : GameState) (r c : Int) :
    genOnly s (getPawnMoves s r c).2 := by
  unfold getPawnMoves; dsimp only
  cases findPin s.pins r c <;> rfl

theorem getRookMoves_genOnly (s : GameState) (r c : Int) :
    genOnly s (getRookMoves s r c).2 := by
  unfold getRookMoves; dsimp only
  cases findPin s.pins r c
  · rfl
  · dsimp only; split_ifs <;> rfl

theorem getKnightMoves_genOnly (s : GameState) (r c : Int) :
    genOnly s (getKnightMoves s r c).2 := by
  unfold getKnightMoves; dsimp only
  cases findPin s.pins r c <;> rfl

theorem getBishopMoves_genOnly (s : GameState) (r c : Int) :
    genOnly s (getBishopMoves s r c).2 := by
  unfold getBishopMoves; dsimp only
  cases findPin s.pins r c <;> rfl

theorem getQueenMoves_genOnly (s : GameState) (r c : Int) :
    genOnly s (getQueenMoves s r c).2 := by
  unfold getQueenMoves; dsimp only
  exact genOnly_trans (getBishopMoves_genOnly s r c)
    (getRookMoves_genOnly (getBishopMoves s r c).2 r c)

theorem kingStep_genOnly (row col : Int) (acc : List Move × GameState) (off : Int × Int) :
    genOnly acc.2 (kingStep row col acc off).2 := by
  unfold kingStep; dsimp only
  split_ifs <;> rfl

theorem foldl_genOnly {γ : Type} (f : List Move × GameState → γ → List Move × GameState)
    (hf : ∀ acc x, genOnly acc.2 (f acc x).2) :
    ∀ (l : List γ) (acc : List Move × GameState) (s : GameState),
      genOnly s acc.2 → genOnly s (l.foldl f acc).2 := by
  intro l
  induction l with
  | nil => intro acc s h; simpa using h
  | cons x xs ih => intro acc s h; exact ih (f acc x) s (genOnly_trans h (hf acc x))

theorem getKingMoves_genOnly (s : GameState) (row col : Int) :
    genOnly s (getKingMoves s row col).2 := by
  unfold getKingMoves; dsimp only
  exact foldl_genOnly (kingStep row col) (kingStep_genOnly row col) _ ([], s) s
    (genOnly_refl s)

theorem pieceMoves_genOnly (s : GameState) (key : Char) (r c : Int) :
    genOnly s (pieceMoves s key r c).2 := by
  unfold pieceMoves
  split_ifs <;>
    first
      | exact getPawnMoves_genOnly s r c
      | exact getRookMoves_genOnly s r c
      | exact getKnightMoves_genOnly s r c
      | exact getBishopMoves_genOnly s r c
      | exact getQueenMoves_genOnly s r c
      | exact getKingMoves_genOnly s r c
      | exact genOnly_refl s

theorem genStep_genOnly (acc : List Move × GameState) (rc : Int × Int) :
    genOnly acc.2 (genStep acc rc).2 := by
  unfold genStep; dsimp only
  split_ifs
  · exact pieceMoves_genOnly acc.2 _ rc.1 rc.2
  · exact genOnly_refl acc.2

theorem getAllPossibleMoves_genOnly (s : GameState) :
    genOnly s (getAllPossibleMoves s).2 := by
  unfold getAllPossibleMoves
  exact foldl_genOnly genStep genStep_genOnly allSquares ([], s) s (genOnly_refl s)

theorem squareUnderAttack_genOnly (s : GameState) (r c : Int) :
    genOnly s (squareUnderAttack s r c).2 := by
  unfold squareUnderAttack; dsimp only
  have h := getAllPossibleMoves_genOnly { s with white_to_move := !s.white_to_move }
  unfold genOnly at h ⊢
  rw [h]
  simp

theorem inCheck_genOnly (s : GameState) : genOnly s (inCheck s).2 := by
  unfold inCheck
  split_ifs <;> exact squareUnderAttack_genOnly s _ _

theorem castlePathAttacked_genOnly (row : Int) :
    ∀ (cols : List Int) (s : GameState), genOnly s (castlePathAttacked s row cols).2 := by
  intro cols
  induction cols with
  | nil => intro s; exact genOnly_refl s
  | cons c rest ih =>
      intro s
      cases hp : (squareUnderAttack s row c).1 with
      | true =>
          simp only [castlePathAttacked, hp, if_true]
          exact squareUnderAttack_genOnly s row c
      | false =>
          simp only [castlePathAttacked, hp, Bool.false_eq_true, if_false]
          exact genOnly_trans (squareUnderAttack_genOnly s row c)
            (ih (squareUnderAttack s row c).2)


theorem castleSideResult_genOnly (s : GameState) (row : Int) (cols : List Int)
    (endCol : Int) : genOnly s (castleSideResult s row cols endCol).2 := by
  unfold castleSideResult
  cases hp : (castlePathAttacked s row cols).1 with
  | true =>
      simp only [hp, if_true]
      exact castlePathAttacked_genOnly row cols s
  | false =>
      simp only [hp, Bool.false_eq_true, if_false]
      exact castlePathAttacked_genOnly row cols s

theorem getKingsideCastleMoves_genOnly (s : GameState) (r c : Int) :
    genOnly s (getKingsideCastleMoves s r c).2 := by
  unfold getKingsideCastleMoves
  split_ifs
  · exact genOnly_refl s
  · exact genOnly_refl s
  · exact genOnly_refl s
  · exact castleSideResult_genOnly s 7 [4, 5, 6] 6
  · exact genOnly_refl s
  · exact genOnly_refl s
  · exact genOnly_refl s
  · exact genOnly_refl s
  · exact castleSideResult_genOnly s 0 [4, 5, 6] 6
  · exact genOnly_refl s

theorem getQueensideCastleMoves_genOnly (s : GameState) (r c : Int) :
    genOnly s (getQueensideCastleMoves s r c).2 := by
  unfold getQueensideCastleMoves
  split_ifs
  · exact genOnly_refl s
  · exact genOnly_refl s
  · exact genOnly_refl s
  · exact castleSideResult_genOnly s 7 [4, 3, 2] 2
  · exact genOnly_refl s
  · exact genOnly_refl s
  · exact genOnly_refl s
  · exact genOnly_refl s
  · exact castleSideResult_genOnly s 0 [4, 3, 2] 2
  · exact genOnly_refl s

set_option maxHeartbeats 1600000 in
theorem getCastleMoves_genOnly (s : GameState) (r c : Int) :
    genOnly s (getCastleMoves s r c).2 := by
  unfold getCastleMoves
  cases hp : (squareUnderAttack s r c).1 with
  | true =>
      simp only [hp, if_true]
      exact squareUnderAttack_genOnly s r c
  | false =>
      simp only [hp, Bool.false_eq_true, if_false]
      split_ifs
      all_goals try dsimp only
      · exact genOnly_trans (squareUnderAttack_genOnly s r c)
          (genOnly_trans (getKingsideCastleMoves_genOnly _ r c)
            (getQueensideCastleMoves_genOnly _ r c))
      · exact genOnly_trans (squareUnderAttack_genOnly s r c)
          (getKingsideCastleMoves_genOnly _ r c)
      · exact genOnly_trans (squareUnderAttack_genOnly s r c)
          (getQueensideCastleMoves_genOnly _ r c)
      · exact squareUnderAttack_genOnly s r c

theorem genOnly_log {s t : GameState} (h : genOnly s t) :
    t.castle_rights_log = s.castle_rights_log := by
  rw [genOnly] at h; rw [h]

theorem genOnly_rights {s t : GameState} (h : genOnly s t) :
    t.current_castling_rights = s.current_castling_rights := by
  rw [genOnly] at h; rw [h]

theorem getValidMovesCore_log (s : GameState) :
    (getValidMovesCore s).2.castle_rights_log = s.castle_rights_log := by
  unfold getValidMovesCore
  generalize checkForPinsAndChecks s = pcc
  dsimp only
  split_ifs <;> (try dsimp only) <;>
    first
      | rw [genOnly_log (genOnly_trans (getAllPossibleMoves_genOnly _)
          (getCastleMoves_genOnly _ _ _))]
      | rw [genOnly_log (getAllPossibleMoves_genOnly _)]
      | rw [genOnly_log (getKingMoves_genOnly _ _ _)]

theorem getValidMovesCore_rights (s : GameState) :
    (getValidMovesCore s).2.current_castling_rights = s.current_castling_rights := by
  unfold getValidMovesCore
  generalize checkForPinsAndChecks s = pcc
  dsimp only
  split_ifs <;> (try dsimp only) <;>
    first
      | rw [genOnly_rights (genOnly_trans (getAllPossibleMoves_genOnly _)
          (getCastleMoves_genOnly _ _ _))]
      | rw [genOnly_rights (getAllPossibleMoves_genOnly _)]
      | rw [genOnly_rights (getKingMoves_genOnly _ _ _)]

/-- Every return path of `getValidMoves` restores the entry rights
(`temp_castle_rights`), so the rights field is unchanged overall. -/
theorem getValidMoves_rights (s : GameState) :
    (getValidMoves s).2.current_castling_rights = s.current_castling_rights := by
  unfold getValidMoves
  dsimp only
  split_ifs <;> rfl

theorem getValidMoves_log (s : GameState) :
    (getValidMoves s).2.castle_rights_log = s.castle_rights_log := by
  unfold getValidMoves
  dsimp only
  split_ifs <;>
    first
      | (show (inCheck (getValidMovesCore s).2).2.castle_rights_log = s.castle_rights_log
         rw [genOnly_log (inCheck_genOnly _), getValidMovesCore_log])
      | rw [getValidMovesCore_log]

-- ---------- Castling-rights invariant (all four rights stay true) ----------

def allTrueCR : CastleRights := ⟨true, true, true, true⟩

/-- The live rights and every logged rights entry are all-true. -/
def rightsInv (s : GameState) : Prop :=
  s.current_castling_rights = allTrueCR ∧ ∀ cr ∈ s.castle_rights_log, cr = allTrueCR

theorem makeMove_log_cases (s : GameState) (m : Move) :
    (makeMove s m).castle_rights_log = s.castle_rights_log ∨
    (makeMove s m).castle_rights_log =
      (⟨s.current_castling_rights.wks, s.current_castling_rights.bks,
        s.current_castling_rights.wqs, s.current_castling_rights.bqs⟩ : CastleRights) ::
        s.castle_rights_log := by
  unfold makeMove
  dsimp only
  split_ifs <;>
    first
      | (left
         rw [makeMoveEp_log, makeMovePromo_log, makeMoveBase_log]
         done)
      | (right
         rw [makeMoveFinish_log]
         try dsimp only
         try rw [makeMoveEp_log]
         try rw [makeMovePromo_log]
         try rw [makeMoveBase_log]
         try rw [makeMoveEp_rights]
         try rw [makeMovePromo_rights]
         try rw [makeMoveBase_rights]
         done)

theorem makeMove_rightsInv (s : GameState) (m : Move) (h : rightsInv s) :
    rightsInv (makeMove s m) := by
  obtain ⟨h1, h2⟩ := h
  constructor
  · rw [makeMove_preserves_rights]; exact h1
  · rcases makeMove_log_cases s m with hc | hc <;> rw [hc]
    · exact h2
    · intro cr hcr
      rcases List.mem_cons.mp hcr with hcr | hcr
      · rw [hcr, h1]
      · exact h2 cr hcr

theorem undoRepStep_rights (s : GameState) :
    (undoRepStep s).current_castling_rights = s.current_castling_rights := by
  unfold undoRepStep; cases s.board_key_log <;> rfl

theorem undoRepStep_log (s : GameState) :
    (undoRepStep s).castle_rights_log = s.castle_rights_log := by
  unfold undoRepStep; cases s.board_key_log <;> rfl

theorem undoFiftyStep_rights (s : GameState) :
    (undoFiftyStep s).current_castling_rights = s.current_castling_rights := by
  unfold undoFiftyStep; cases s.fifty_move_log <;> rfl

theorem undoFiftyStep_log (s : GameState) :
    (undoFiftyStep s).castle_rights_log = s.castle_rights_log := by
  unfold undoFiftyStep; cases s.fifty_move_log <;> rfl

theorem undoBoardStep_rights (s : GameState) (m : Move) :
    (undoBoardStep s m).current_castling_rights = s.current_castling_rights := by
  unfold undoBoardStep; dsimp only; split_ifs <;> rfl

theorem undoBoardStep_log (s : GameState) (m : Move) :
    (undoBoardStep s m).castle_rights_log = s.castle_rights_log := by
  unfold undoBoardStep; dsimp only; split_ifs <;> rfl

theorem undoCastleStep_rights (s : GameState) (m : Move) :
    (undoCastleStep s m).current_castling_rights = s.current_castling_rights := by
  unfold undoCastleStep; dsimp only; split_ifs <;> rfl

theorem undoCastleStep_log (s : GameState) (m : Move) :
    (undoCastleStep s m).castle_rights_log = s.castle_rights_log := by
  unfold undoCastleStep; dsimp only; split_ifs <;> rfl

theorem undoLogStep_rightsInv (s : GameState) (h : rightsInv s) :
    rightsInv (undoLogStep s) := by
  obtain ⟨h1, h2⟩ := h
  have hlog : (undoLogStep s).castle_rights_log = s.castle_rights_log.tail := rfl
  have hcur : (undoLogStep s).current_castling_rights =
      s.castle_rights_log.tail.headD s.current_castling_rights := rfl
  constructor
  · rw [hcur]
    cases htl : s.castle_rights_log.tail with
    | nil => simpa using h1
    | cons a l =>
        have : a ∈ s.castle_rights_log := by
          have := List.mem_of_mem_tail (l := s.castle_rights_log) (a := a)
          rw [htl] at this
          exact this (List.mem_cons_self a l)
        simpa using h2 a this
  · rw [hlog]
    intro cr hcr
    exact h2 cr (List.mem_of_mem_tail hcr)

theorem undoMove_rightsInv (s : GameState) (h : rightsInv s) :
    rightsInv (undoMove s) := by
  unfold undoMove
  split_ifs with he
  · exact h
  · have h1 : rightsInv (undoFiftyStep (undoRepStep s)) := by
      unfold rightsInv
      rw [undoFiftyStep_rights, undoFiftyStep_log, undoRepStep_rights, undoRepStep_log]
      exact h
    dsimp only
    cases hm : (undoFiftyStep (undoRepStep s)).move_log with
    | nil =>
        simp only [hm]
        exact h1
    | cons mv rest =>
        simp only [hm]
        have h3 : rightsInv (undoBoardStep
            { undoFiftyStep (undoRepStep s) with move_log := rest } mv) := by
          unfold rightsInv
          rw [undoBoardStep_rights, undoBoardStep_log]
          exact h1
        have h4 := undoLogStep_rightsInv _ h3
        have h5 : rightsInv (undoCastleStep (undoLogStep (undoBoardStep
            { undoFiftyStep (undoRepStep s) with move_log := rest } mv)) mv) := by
          unfold rightsInv
          rw [undoCastleStep_rights, undoCastleStep_log]
          exact h4
        obtain ⟨h5a, h5b⟩ := h5
        constructor
        · rw [update_fen_rights]; exact h5a
        · rw [update_fen_log]; exact h5b

theorem getValidMoves_rightsInv (s : GameState) (h : rightsInv s) :
    rightsInv ((getValidMoves s).2) := by
  unfold rightsInv
  rw [getValidMoves_rights, getValidMoves_log]
  exact h

theorem gsInit_rightsInv (fen : String) : rightsInv (gsInit fen) := by
  constructor
  · rfl
  · have hl : (gsInit fen).castle_rights_log = [allTrueCR] := rfl
    rw [hl]
    intro cr hcr
    rw [List.mem_singleton] at hcr
    exact hcr

-- =================== Engine operation sequences (for the rights invariant) ===================

/-- The three mutating engine entry points a driver may call on a `GameState`. -/
inductive EngineOp where
  | make (m : Move)
  | undo
  | genLegal

def applyOp (s : GameState) : EngineOp → GameState
  | .make m => makeMove s m
  | .undo => undoMove s
  | .genLegal => (getValidMoves s).2

theorem foldOps_rightsInv (ops : List EngineOp) :
    ∀ s : GameState, rightsInv s → rightsInv (ops.foldl applyOp s) := by
  induction ops with
  | nil => intro s h; exact h
  | cons op rest ih =>
      intro s h
      cases op with
      | make m => exact ih _ (makeMove_rightsInv s m h)
      | undo => exact ih _ (undoMove_rightsInv s h)
      | genLegal => exact ih _ (getValidMoves_rightsInv s h)

/-- C8: in every state reachable from the constructor (any input FEN, its
castling field included) by any sequence of `makeMove`, `undoMove`, and
`getValidMoves` calls, all four castling-rights booleans are still true, and
the castling field `update_fen` would serialize is the string `KQkq`. -/
theorem castle_rights_always_all_true (fen : String) (ops : List EngineOp) :
    (ops.foldl applyOp (gsInit fen)).current_castling_rights =
      (⟨true, true, true, true⟩ : CastleRights) ∧
    castleField ((ops.foldl applyOp (gsInit fen)).current_castling_rights) =
      ['K', 'Q', 'k', 'q'] := by
  have h := foldOps_rightsInv ops (gsInit fen) (gsInit_rightsInv fen)
  refine ⟨h.1, ?_⟩
  rw [h.1]
  rfl

-- =================== Claim theorems ===================

-- C1 supporting position: 1. e4 a6 2. Ke2 (a legal king move in real play).

def gsK0 : GameState := gsInit INITIAL_FEN
def gsK1 : GameState := makeMove gsK0 (mkMove (6, 4) (4, 4) gsK0.board false false)
def gsK2 : GameState := makeMove gsK1 (mkMove (1, 0) (2, 0) gsK1.board false false)
def mKe2 : Move := mkMove (7, 4) (6, 4) gsK2.board false false
def gsK3 : GameState := makeMove gsK2 mKe2

/-- C1: the claim that `makeMove` revokes castling rights fails on the code:
the `updateCastleRights` call site is commented out, so `makeMove` leaves the
rights untouched on every input.  After the legal sequence 1. e4 a6 2. Ke2 the
white king has moved, yet all four rights are still true, while the defined
(but never called) `updateCastleRights` helper would have revoked both white
rights. -/
theorem makeMove_never_revokes_castle_rights :
    (∀ (s : GameState) (m : Move),
      (makeMove s m).current_castling_rights = s.current_castling_rights) ∧
    mKe2.piece_moved = 'K' ∧
    gsK3.current_castling_rights = (⟨true, true, true, true⟩ : CastleRights) ∧
    (updateCastleRights gsK2 mKe2).current_castling_rights =
      (⟨false, true, false, true⟩ : CastleRights) := by
  refine ⟨makeMove_preserves_rights, by decide, by decide, by decide⟩

/-- C9: the initial standard position has exactly 20 legal moves. -/
theorem initial_position_has_20_legal_moves :
    (getValidMoves (gsInit INITIAL_FEN)).1.length = 20 := by decide

/-- C10: for moves with coordinates in 0..7, `__eq__` (moveID comparison) holds
iff the start squares and the end squares coincide; boards and flags play no
role. -/
theorem move_eq_iff_same_squares (sq1 eq1 sq2 eq2 : Int × Int) (bo1 bo2 : Board)
    (ep1 cs1 ep2 cs2 : Bool)
    (h1 : 0 ≤ sq1.1 ∧ sq1.1 ≤ 7 ∧ 0 ≤ sq1.2 ∧ sq1.2 ≤ 7)
    (h2 : 0 ≤ eq1.1 ∧ eq1.1 ≤ 7 ∧ 0 ≤ eq1.2 ∧ eq1.2 ≤ 7)
    (h3 : 0 ≤ sq2.1 ∧ sq2.1 ≤ 7 ∧ 0 ≤ sq2.2 ∧ sq2.2 ≤ 7)
    (h4 : 0 ≤ eq2.1 ∧ eq2.1 ≤ 7 ∧ 0 ≤ eq2.2 ∧ eq2.2 ≤ 7) :
    moveEq (mkMove sq1 eq1 bo1 ep1 cs1) (mkMove sq2 eq2 bo2 ep2 cs2) = true ↔
      (sq1 = sq2 ∧ eq1 = eq2) := by
  obtain ⟨a1, a2⟩ := sq1
  obtain ⟨b1, b2⟩ := eq1
  obtain ⟨c1, c2⟩ := sq2
  obtain ⟨d1, d2⟩ := eq2
  simp only [moveEq, mkMove, decide_eq_true_eq, Prod.mk.injEq] at *
  constructor
  · intro h
    omega
  · intro h
    omega

theorem move_eq_iff_same_squares_witness :
    moveEq (mkMove (0, 3) (4, 7) [] true false) (mkMove (0, 3) (4, 7) [['q']] false true) =
        true ↔ (((0 : Int), (3 : Int)) = ((0 : Int), (3 : Int)) ∧
          ((4 : Int), (7 : Int)) = ((4 : Int), (7 : Int))) :=
  move_eq_iff_same_squares (0, 3) (4, 7) (0, 3) (4, 7) [] [['q']] true false false true
    (by decide) (by decide) (by decide) (by decide)

-- C7 supporting position: a bare-kings board (piece count 2).

def gsKK : GameState := gsInit "8/8/8/8/8/8/8/K6k w - - 0 1"

/-- C7 counterexample: with 2 pieces on the board and requested depth 5, the
search depth is not increased at all (the adjustment block only runs when the
requested depth equals 4), contradicting the claim that any requested depth is
increased by 4 when at most 4 pieces remain. -/
theorem depth_adjustment_counterexample :
    pieceCount gsKK ≤ 4 ∧ findBestMoveDepth gsKK 5 = 5 ∧
      findBestMoveDepth gsKK 5 ≠ 5 + 4 := by decide

/-- C7 (amended): the endgame deepening applies only when the requested depth
is exactly 4 (the default): then at most 4 pieces give depth 8 = 4 + 4 and at
most 7 pieces give depth 6 = 4 + 2; any other requested depth is used
unchanged. -/
theorem depth_adjustment_only_at_default (gs : GameState) (d : Int) :
    (d = 4 →
      (pieceCount gs ≤ 4 → findBestMoveDepth gs d = d + 4) ∧
      (¬pieceCount gs ≤ 4 → pieceCount gs ≤ 7 → findBestMoveDepth gs d = d + 2) ∧
      (¬pieceCount gs ≤ 7 → findBestMoveDepth gs d = d)) ∧
    (d ≠ 4 → findBestMoveDepth gs d = d) := by
  unfold findBestMoveDepth
  constructor
  · intro hd
    subst hd
    refine ⟨?_, ?_, ?_⟩
    · intro hp
      split_ifs <;> first | rfl | omega
    · intro hp1 hp2
      split_ifs <;> first | rfl | omega
    · intro hp
      split_ifs <;> first | rfl | omega
  · intro hd
    split_ifs <;> first | rfl | omega

theorem depth_adjustment_only_at_default_witness :
    findBestMoveDepth gsKK 4 = 4 + 4 ∧ findBestMoveDepth gsKK 9 = 9 :=
  ⟨((depth_adjustment_only_at_default gsKK 4).1 rfl).1 (by decide),
   (depth_adjustment_only_at_default gsKK 9).2 (by decide)⟩

-- C5 supporting position: 1. f3 e5 2. g4, Black to move (fool's mate threat).

def gsF0 : GameState := gsInit INITIAL_FEN
def gsF1 : GameState := makeMove gsF0 (mkMove (6, 5) (5, 5) gsF0.board false false)
def gsF2 : GameState := makeMove gsF1 (mkMove (1, 4) (3, 4) gsF1.board false false)
def gsFool : GameState := makeMove gsF2 (mkMove (6, 6) (4, 6) gsF2.board false false)

/-- The queen move d8–h4 in the fool's-mate position. -/
def qh4 : Move := mkMove (0, 3) (4, 7) gsFool.board false false

set_option maxHeartbeats 8000000 in
/-- C5: from the position after 1. f3 e5 2. g4 with Black to move, the
mate-in-one pre-scan of `findBestMove` finds Qh4 among the legal root moves
and delivers it at every requested depth, for every possible outcome of the
(abstracted, never reached) deeper search. -/
theorem foolsmate_search_delivers_qh4 (depth : Int) (deep : Option Move)
    (hd : 1 ≤ depth) :
    findBestMoveResult gsFool (getValidMoves gsFool).1 depth deep = some qh4 := by
  have hm : (mateInOnePrescan gsFool (getValidMoves gsFool).1).1 = some qh4 := by decide
  unfold findBestMoveResult
  rw [hm]

theorem foolsmate_search_delivers_qh4_witness :
    (1 : Int) ≤ 1 ∧
      findBestMoveResult gsFool (getValidMoves gsFool).1 1 none = some qh4 :=
  ⟨by decide, foolsmate_search_delivers_qh4 1 none (by decide)⟩

-- C2 supporting position: 1. a3 d5 2. a4 d4 3. e4, Black to move, where
-- dxe3 e.p. is legal.

def gA0 : GameState := gsInit INITIAL_FEN
def gA1 : GameState := makeMove gA0 (mkMove (6, 0) (5, 0) gA0.board false false)
def gA2 : GameState := makeMove gA1 (mkMove (1, 3) (3, 3) gA1.board false false)
def gA3 : GameState := makeMove gA2 (mkMove (5, 0) (4, 0) gA2.board false false)
def gA4 : GameState := makeMove gA3 (mkMove (3, 3) (4, 3) gA3.board false false)
def gA5 : GameState := makeMove gA4 (mkMove (6, 4) (4, 4) gA4.board false false)

/-- Black's en-passant capture d4×e3 in that position. -/
def mEP2 : Move := mkMove (4, 3) (5, 4) gA5.board true false

set_option maxHeartbeats 8000000 in
/-- C2: make/undo is *not* an inverse on the code as written.  In the reachable
position after 1. a3 d5 2. a4 d4 3. e4, the legal reply d4×e3 (en passant) is
generated by `getValidMoves`, but `Move.__init__` records the captured pawn as
`'p'` for every en-passant capture (`'p' if piece_moved.upper() == 'P' else
'P'`, and `.upper()` makes the test true for both pawn colors), so `undoMove`
puts a black pawn back on e4 where the captured white pawn stood: the board is
not restored. -/
theorem undo_black_enpassant_corrupts_board :
    (getValidMoves gA5).1.any (fun m => m = mEP2) = true ∧
    mEP2.is_enpassant_move = true ∧
    mEP2.piece_captured = 'p' ∧
    getCell gA5.board 4 4 = 'P' ∧
    getCell (undoMove (makeMove gA5 mEP2)).board 4 4 = 'p' ∧
    (undoMove (makeMove gA5 mEP2)).board ≠ gA5.board := by decide

-- C3 counterexample input: a legal position with explicit castling, halfmove
-- and fullmove fields.

def fenT0 : String := "k7/8/8/8/8/8/8/K7 w - - 5 30"

set_option maxHeartbeats 4000000 in
/-- C3 counterexample: parsing a legal position text and serializing it does
not reproduce the position's castling rights, halfmove clock, or fullmove
number: the constructor ignores those fields, so the output says `KQkq - 0 1`
where the input said `- - 5 30`. -/
theorem serialize_parse_changes_fields :
    (update_fen (gsInit fenT0)).current_fen = "k7/8/8/8/8/8/8/K7 w KQkq - 0 1" ∧
    (splitWs (update_fen (gsInit fenT0)).current_fen.data).getD 2 [] ≠
      (splitWs fenT0.data).getD 2 [] ∧
    (splitWs (update_fen (gsInit fenT0)).current_fen.data).getD 4 [] ≠
      (splitWs fenT0.data).getD 4 [] ∧
    (splitWs (update_fen (gsInit fenT0)).current_fen.data).getD 5 [] ≠
      (splitWs fenT0.data).getD 5 [] := by decide

-- C6 counterexample state: the initial position with a stale pin entry on the
-- black pawn e7.

def gsPin : GameState := { gsInit INITIAL_FEN with pins := [(1, 4, 1, 0)] }

set_option maxHeartbeats 4000000 in
/-- C6 counterexample: `squareUnderAttack` is not mutation-free on every
state: generating the opponent's pseudo-legal moves consumes pin entries lying
on opponent piece squares, so with a pin entry on e7 the call erases it. -/
theorem squareUnderAttack_consumes_pin_entry :
    gsPin.pins = [(1, 4, 1, 0)] ∧
    (squareUnderAttack gsPin 0 0).2.pins = [] ∧
    (squareUnderAttack gsPin 0 0).2 ≠ gsPin := by decide

-- C4 supporting positions.

/-- Two-knight helpmate: white Kc2/Nb3/Nc1 mate the black king on a1, with
insufficient mating material on the board. -/
def gs2N : GameState := gsInit "8/8/8/8/8/1N6/2K5/k1N5 b - - 0 1"

set_option maxHeartbeats 4000000 in
/-- C4 counterexample: a position where insufficient material holds and yet
`getValidMoves` reports checkmate (not stalemate): the no-legal-move branch
runs first, so the draw conditions do not override mate. -/
theorem insufficient_material_yet_checkmate :
    insufficientMaterial gs2N = true ∧
    (getValidMoves gs2N).1 = [] ∧
    (getValidMoves gs2N).2.checkmate = true ∧
    (getValidMoves gs2N).2.stalemate = false := by decide

/-- King and bishop against a lone king: stalemate-by-material with king moves
still available (spec section 8's example). -/
def gsKB : GameState := gsInit "8/8/8/8/8/8/1B6/K6k w - - 0 1"

/-- C4 (amended): `getValidMoves` classification.  When at least one legal
move survives the core generation and a draw condition holds (insufficient
material, a repetition key with count ≥ 3, or fifty-move counter ≥ 100), the
result is an empty list with stalemate true and checkmate false; when the core
generation yields no legal move at all (this branch runs first), checkmate is
set if the side to move is in check, else stalemate is set. -/
theorem getValidMoves_draw_and_mate_flags (s : GameState) :
    (((getValidMovesCore s).1 ≠ [] ∧
        (insufficientMaterial (getValidMovesCore s).2 = true ∨
         checkThreefoldRepetition (getValidMovesCore s).2 = true ∨
         (getValidMovesCore s).2.fifty_move_counter ≥ 100)) →
      (getValidMoves s).1 = [] ∧ (getValidMoves s).2.stalemate = true ∧
        (getValidMoves s).2.checkmate = false) ∧
    ((getValidMovesCore s).1 = [] →
      (getValidMoves s).1 = [] ∧
      ((inCheck (getValidMovesCore s).2).1 = true →
        (getValidMoves s).2.checkmate = true) ∧
      ((inCheck (getValidMovesCore s).2).1 = false →
        (getValidMoves s).2.stalemate = true)) := by
  unfold getValidMoves
  generalize hc : getValidMovesCore s = core
  obtain ⟨ms, st⟩ := core
  dsimp only
  constructor
  · rintro ⟨hne, hd⟩
    have hlen : ¬ms.length = 0 := by
      simpa [List.length_eq_zero] using hne
    rw [if_neg hlen]
    split_ifs with hi ht hf
    · exact ⟨rfl, rfl, rfl⟩
    · exact ⟨rfl, rfl, rfl⟩
    · exact ⟨rfl, rfl, rfl⟩
    · rcases hd with h | h | h
      · exact absurd h hi
      · exact absurd h ht
      · exact absurd h hf
  · intro he
    subst he
    have h0 : ([] : List Move).length = 0 := rfl
    rw [if_pos h0]
    refine ⟨rfl, ?_, ?_⟩
    · intro hx
      rw [if_pos hx]
    · intro hx
      have hnx : ¬(inCheck st).1 = true := by
        rw [hx]
        exact Bool.false_ne_true
      rw [if_neg hnx]

theorem getValidMoves_draw_and_mate_flags_witness :
    ((getValidMovesCore gs2N).1 = [] ∧
      (inCheck (getValidMovesCore gs2N).2).1 = true ∧
      (getValidMoves gs2N).2.checkmate = true) ∧
    ((getValidMovesCore gsKB).1 ≠ [] ∧ insufficientMaterial (getValidMovesCore gsKB).2 = true ∧
      (getValidMoves gsKB).1 = [] ∧ (getValidMoves gsKB).2.stalemate = true ∧
      (getValidMoves gsKB).2.checkmate = false) := by
  constructor
  · refine ⟨by decide, by decide, ?_⟩
    exact (((getValidMoves_draw_and_mate_flags gs2N).2 (by decide)).2.1 (by decide))
  · refine ⟨by decide, by decide, ?_⟩
    exact (getValidMoves_draw_and_mate_flags gsKB).1 ⟨by decide, Or.inl (by decide)⟩

-- ---------- Exact state preservation of generation (pins empty) ----------

theorem findPin_nil (r c : Int) : findPin [] r c = none := rfl

theorem getPawnMoves_state (x : GameState) (r c : Int) (h : x.pins = []) :
    (getPawnMoves x r c).2 = x := by
  unfold getPawnMoves
  rw [h]
  rfl

theorem getRookMoves_state (x : GameState) (r c : Int) (h : x.pins = []) :
    (getRookMoves x r c).2 = x := by
  unfold getRookMoves
  rw [h]
  rfl

theorem getKnightMoves_state (x : GameState) (r c : Int) (h : x.pins = []) :
    (getKnightMoves x r c).2 = x := by
  unfold getKnightMoves
  rw [h]
  rfl

theorem getBishopMoves_state (x : GameState) (r c : Int) (h : x.pins = []) :
    (getBishopMoves x r c).2 = x := by
  unfold getBishopMoves
  rw [h]
  rfl

theorem getQueenMoves_state (x : GameState) (r c : Int) (h : x.pins = []) :
    (getQueenMoves x r c).2 = x := by
  unfold getQueenMoves
  dsimp only
  rw [getBishopMoves_state x r c h]
  exact getRookMoves_state x r c h

theorem kingStep_state (row col : Int) (ms : List Move) (x : GameState) (off : Int × Int)
    (hk : (if x.white_to_move then x.white_king_location else x.black_king_location) =
      (row, col)) :
    (kingStep row col (ms, x) off).2 = x := by
  unfold kingStep
  dsimp only
  by_cases hw : x.white_to_move = true
  · rw [if_pos hw] at hk
    rw [if_pos hw, if_pos hw]
    split_ifs <;> try rfl
    all_goals
      dsimp only
      rw [← hk]
  · rw [if_neg hw] at hk
    rw [if_neg hw, if_neg hw]
    split_ifs <;> try rfl
    all_goals
      dsimp only
      rw [← hk]

/-- Fold a step function that maps `(ms, x)` to a pair with state `x` again. -/
theorem foldl_state_mem {γ : Type} (f : List Move × GameState → γ → List Move × GameState)
    (x : GameState) :
    ∀ (l : List γ), (∀ g ∈ l, ∀ ms, (f (ms, x) g).2 = x) →
      ∀ ms, (l.foldl f (ms, x)).2 = x := by
  intro l
  induction l with
  | nil => intro _ ms; rfl
  | cons g t ih =>
      intro hf ms
      have h2 := hf g (List.mem_cons_self g t) ms
      have h1 : f (ms, x) g = ((f (ms, x) g).1, x) := by
        have h3 : ((f (ms, x) g).1, (f (ms, x) g).2) = ((f (ms, x) g).1, x) := by
          rw [h2]
        exact Eq.trans (by rfl) h3
      rw [List.foldl_cons, h1]
      exact ih (fun g2 hg2 => hf g2 (List.mem_cons_of_mem g hg2)) (f (ms, x) g).1

theorem getKingMoves_state (x : GameState) (row col : Int)
    (hk : (if x.white_to_move then x.white_king_location else x.black_king_location) =
      (row, col)) :
    (getKingMoves x row col).2 = x := by
  unfold getKingMoves
  exact foldl_state_mem (kingStep row col) x _
    (fun off _ ms => kingStep_state row col ms x off hk) []

/-- The king-cache consistency condition at one square: a king code on the
board implies the matching cached king location points there. -/
def kingsCondAt (s : GameState) (rc : Int × Int) : Prop :=
  (((getCell s.board rc.1 rc.2).toLower = 'k' ∧
      (getCell s.board rc.1 rc.2).isUpper = true) → s.white_king_location = rc) ∧
  (((getCell s.board rc.1 rc.2).toLower = 'k' ∧
      (getCell s.board rc.1 rc.2).isLower = true) → s.black_king_location = rc)

/-- Spec section 3's invariant: the cached king coordinates always equal the
kings' grid locations. -/
def kingsConsistent (s : GameState) : Prop :=
  ∀ rc ∈ allSquares, kingsCondAt s rc

instance (s : GameState) (rc : Int × Int) : Decidable (kingsCondAt s rc) := by
  unfold kingsCondAt; infer_instance

instance (s : GameState) : Decidable (kingsConsistent s) := by
  unfold kingsConsistent; exact List.decidableBAll _ allSquares

theorem genStep_state (x : GameState) (rc : Int × Int) (hpins : x.pins = [])
    (hkc : kingsCondAt x rc) : ∀ ms, (genStep (ms, x) rc).2 = x := by
  intro ms
  unfold genStep
  dsimp only
  split_ifs with hcond
  · unfold pieceMoves
    split_ifs <;>
      first
        | exact getPawnMoves_state x rc.1 rc.2 hpins
        | exact getRookMoves_state x rc.1 rc.2 hpins
        | exact getKnightMoves_state x rc.1 rc.2 hpins
        | exact getBishopMoves_state x rc.1 rc.2 hpins
        | exact getQueenMoves_state x rc.1 rc.2 hpins
        | rfl
        | (apply getKingMoves_state x rc.1 rc.2
           rename_i hkey
           cases hw : x.white_to_move with
           | true =>
               show x.white_king_location = (rc.1, rc.2)
               have hup : (getCell x.board rc.1 rc.2).isUpper = true := by
                 rw [hw] at hcond
                 rcases hcond.2 with hca | hca
                 · exact hca.1
                 · exact absurd rfl hca.2
               exact hkc.1 ⟨hkey, hup⟩
           | false =>
               show x.black_king_location = (rc.1, rc.2)
               have hlo : (getCell x.board rc.1 rc.2).isLower = true := by
                 rw [hw] at hcond
                 rcases hcond.2 with hca | hca
                 · exact absurd hca.2 Bool.false_ne_true
                 · exact hca.1
               exact hkc.2 ⟨hkey, hlo⟩)
  · rfl

theorem getAllPossibleMoves_state (x : GameState) (hpins : x.pins = [])
    (hk : kingsConsistent x) : (getAllPossibleMoves x).2 = x := by
  unfold getAllPossibleMoves
  exact foldl_state_mem genStep x allSquares
    (fun rc hrc => genStep_state x rc hpins (hk rc hrc)) []

/-- C6 (amended): `squareUnderAttack(row, col)` returns whether some opponent
pseudo-legal move ends on that square, and — provided the pins list is empty at
call time and the cached king locations match the board (spec section 3's
standing invariant) — returns the `GameState` to exactly its prior value, every
field included. -/
theorem squareUnderAttack_result_and_no_mutation (s : GameState) (row col : Int)
    (hpins : s.pins = []) (hk : kingsConsistent s) :
    (squareUnderAttack s row col).2 = s ∧
    ((squareUnderAttack s row col).1 = true ↔
      ∃ m ∈ (getAllPossibleMoves { s with white_to_move := !s.white_to_move }).1,
        m.end_row = row ∧ m.end_col = col) := by
  have hg : (getAllPossibleMoves { s with white_to_move := !s.white_to_move }).2 =
      { s with white_to_move := !s.white_to_move } := by
    apply getAllPossibleMoves_state
    · exact hpins
    · exact hk
  constructor
  · unfold squareUnderAttack
    dsimp only
    rw [hg]
    dsimp only
    simp only [Bool.not_not]
  · unfold squareUnderAttack
    dsimp only
    rw [List.any_eq_true]
    simp only [decide_eq_true_eq]

theorem squareUnderAttack_result_and_no_mutation_witness :
    (squareUnderAttack (gsInit INITIAL_FEN) 2 0).2 = gsInit INITIAL_FEN ∧
    ((squareUnderAttack (gsInit INITIAL_FEN) 2 0).1 = true ↔
      ∃ m ∈ (getAllPossibleMoves { gsInit INITIAL_FEN with
          white_to_move := !(gsInit INITIAL_FEN).white_to_move }).1,
        m.end_row = 2 ∧ m.end_col = 0) :=
  squareUnderAttack_result_and_no_mutation (gsInit INITIAL_FEN) 2 0 (by decide) (by decide)

-- ------------------- C3 (amended): FEN serialize/parse round trip -------------------

/-- A board cell that survives the FEN round trip: not a digit (digits are
run-length counts), not the rank separator, not whitespace. -/
def validCell (c : Char) : Prop :=
  c.isDigit = false ∧ c ≠ '/' ∧ c.isWhitespace = false

instance : DecidablePred validCell := fun c => by unfold validCell; infer_instance

theorem pyJoin_cons_cons (sep : Char) (x y : List Char) (t : List (List Char)) :
    pyJoin sep (x :: y :: t) = x ++ sep :: pyJoin sep (y :: t) := rfl

theorem pyJoin_ne_nil (sep : Char) (x : List Char) (xs : List (List Char)) (hx : x ≠ []) :
    pyJoin sep (x :: xs) ≠ [] := by
  cases xs with
  | nil => exact hx
  | cons y t => rw [pyJoin_cons_cons]; simp

theorem pyJoin_mem (sep : Char) :
    ∀ (rows : List (List Char)) (x : Char), x ∈ pyJoin sep rows → x = sep ∨ ∃ r ∈ rows, x ∈ r
  | [], x, hx => absurd hx (List.not_mem_nil x)
  | [r], x, hx => Or.inr ⟨r, List.mem_singleton.mpr rfl, hx⟩
  | r :: r2 :: t, x, hx => by
      rw [pyJoin_cons_cons, List.mem_append] at hx
      rcases hx with hx | hx
      · exact Or.inr ⟨r, by simp, hx⟩
      · rcases List.mem_cons.mp hx with hx | hx
        · exact Or.inl hx
        · rcases pyJoin_mem sep (r2 :: t) x hx with h | ⟨q, hq, hxq⟩
          · exact Or.inl h
          · exact Or.inr ⟨q, by simp [hq], hxq⟩

theorem expandRank_cons (c : Char) (l : List Char) :
    expandRank (c :: l) =
      (if c.isDigit then List.replicate (digitVal c) '-' else [c]) ++ expandRank l := rfl

theorem expandRank_cons_nondigit (c : Char) (l : List Char) (h : c.isDigit = false) :
    expandRank (c :: l) = c :: expandRank l := by
  rw [expandRank_cons, h]
  simp

theorem expandRank_append : ∀ (x y : List Char),
    expandRank (x ++ y) = expandRank x ++ expandRank y
  | [], y => rfl
  | c :: t, y => by
      rw [List.cons_append, expandRank_cons, expandRank_cons, expandRank_append t y,
        List.append_assoc]

theorem expandRank_repr (e : Nat) (he : e ≤ 9) :
    expandRank (Nat.repr e).data = List.replicate e '-' := by
  interval_cases e <;> decide

theorem fenRowAux_nil_eq (e : Nat) :
    fenRowAux [] e = if e ≠ 0 then (Nat.repr e).data else [] := rfl

theorem fenRowAux_cons_eq (c : Char) (t : List Char) (e : Nat) :
    fenRowAux (c :: t) e = if c = '-' then fenRowAux t (e + 1)
      else (if e ≠ 0 then (Nat.repr e).data else []) ++ c :: fenRowAux t 0 := rfl

theorem expandRank_digitfield (e : Nat) (he : e ≤ 9) :
    expandRank (if e ≠ 0 then (Nat.repr e).data else []) = List.replicate e '-' := by
  by_cases h0 : e = 0
  · subst h0; rw [if_neg (by omega)]; rfl
  · rw [if_pos h0, expandRank_repr e he]

/-- Decompressing a run-length-encoded row restores it (with `e` pending dashes). -/
theorem fenRow_roundtrip : ∀ (row : List Char) (e : Nat), e + row.length ≤ 9 →
    (∀ c ∈ row, c.isDigit = false) →
    expandRank (fenRowAux row e) = List.replicate e '-' ++ row
  | [], e, h9, _ => by
      rw [fenRowAux_nil_eq, expandRank_digitfield e (by omega)]
      simp
  | c :: t, e, h9, hv => by
      rw [fenRowAux_cons_eq]
      by_cases hc : c = '-'
      · rw [if_pos hc]
        rw [fenRow_roundtrip t (e + 1) (by simp at h9 ⊢; omega)
          (fun x hx => hv x (List.mem_cons_of_mem c hx))]
        subst hc
        rw [List.replicate_succ']
        simp
      · rw [if_neg hc, expandRank_append, expandRank_digitfield e (by simp at h9; omega)]
        rw [expandRank_cons_nondigit c _ (hv c (List.mem_cons_self c t))]
        rw [fenRow_roundtrip t 0 (by simp at h9; omega)
          (fun x hx => hv x (List.mem_cons_of_mem c hx))]
        simp

/-- A compressed row of a genuine rank is never empty. -/
theorem fenRowAux_ne_nil : ∀ (row : List Char) (e : Nat), e + row.length ≤ 9 →
    0 < e + row.length → fenRowAux row e ≠ []
  | [], e, h9, hpos => by
      simp only [List.length_nil, Nat.add_zero] at h9 hpos
      rw [fenRowAux_nil_eq, if_pos (by omega : e ≠ 0)]
      have h1 : 1 ≤ e := hpos
      interval_cases e <;> decide
  | c :: t, e, h9, _ => by
      rw [fenRowAux_cons_eq]
      by_cases hc : c = '-'
      · rw [if_pos hc]
        exact fenRowAux_ne_nil t (e + 1) (by simp at h9 ⊢; omega) (by omega)
      · rw [if_neg hc]
        simp

/-- The characters `Nat.repr` emits for a one-digit count. -/
theorem repr_digit_chars (e : Nat) (h1 : 1 ≤ e) (h2 : e ≤ 9) :
    ∀ x ∈ (Nat.repr e).data, x.isWhitespace = false ∧ x ≠ '/' := by
  interval_cases e <;> decide

/-- Every character of a compressed row is a digit-field character (neither
whitespace nor a slash) or a cell of the original row. -/
theorem fenRowAux_chars : ∀ (row : List Char) (e : Nat), e + row.length ≤ 9 →
    ∀ x ∈ fenRowAux row e, (x.isWhitespace = false ∧ x ≠ '/') ∨ x ∈ row
  | [], e, h9, x, hx => by
      rw [fenRowAux_nil_eq] at hx
      by_cases h0 : e = 0
      · rw [if_neg (by omega)] at hx
        exact absurd hx (List.not_mem_nil x)
      · rw [if_pos h0] at hx
        exact Or.inl (repr_digit_chars e (by omega) (by omega) x hx)
  | c :: t, e, h9, x, hx => by
      rw [fenRowAux_cons_eq] at hx
      by_cases hc : c = '-'
      · rw [if_pos hc] at hx
        rcases fenRowAux_chars t (e + 1) (by simp at h9 ⊢; omega) x hx with h | h
        · exact Or.inl h
        · exact Or.inr (List.mem_cons_of_mem c h)
      · rw [if_neg hc, List.mem_append] at hx
        rcases hx with hx | hx
        · by_cases h0 : e = 0
          · rw [if_neg (by omega)] at hx
            exact absurd hx (List.not_mem_nil x)
          · rw [if_pos h0] at hx
            exact Or.inl (repr_digit_chars e (by omega) (by simp at h9; omega) x hx)
        · rcases List.mem_cons.mp hx with hx | hx
          · exact Or.inr (hx ▸ List.mem_cons_self c t)
          · rcases fenRowAux_chars t 0 (by simp at h9; omega) x hx with h | h
            · exact Or.inl h
            · exact Or.inr (List.mem_cons_of_mem c h)

theorem splitSlash_cons_eq (c : Char) (t : List Char) :
    splitSlash (c :: t) = if c = '/' then [] :: splitSlash t else
      match splitSlash t with
      | [] => [[c]]
      | h :: r => (c :: h) :: r := rfl

theorem splitSlash_no_slash : ∀ (x : List Char), (∀ c ∈ x, c ≠ '/') → splitSlash x = [x]
  | [], _ => rfl
  | c :: t, h => by
      rw [splitSlash_cons_eq, if_neg (h c (List.mem_cons_self c t)),
        splitSlash_no_slash t (fun d hd => h d (List.mem_cons_of_mem c hd))]

theorem splitSlash_append : ∀ (x r : List Char), (∀ c ∈ x, c ≠ '/') →
    splitSlash (x ++ '/' :: r) = x :: splitSlash r
  | [], r, _ => by
      show splitSlash ('/' :: r) = [] :: splitSlash r
      rw [splitSlash_cons_eq, if_pos rfl]
  | c :: t, r, h => by
      show splitSlash (c :: (t ++ '/' :: r)) = (c :: t) :: splitSlash r
      rw [splitSlash_cons_eq, if_neg (h c (List.mem_cons_self c t)),
        splitSlash_append t r (fun d hd => h d (List.mem_cons_of_mem c hd))]

/-- `str.split('/')` undoes `'/'.join` on slash-free chunks. -/
theorem splitSlash_pyJoin : ∀ (rows : List (List Char)),
    (∀ r ∈ rows, ∀ c ∈ r, c ≠ '/') → rows ≠ [] → splitSlash (pyJoin '/' rows) = rows
  | [], _, hne => absurd rfl hne
  | [r], h, _ => splitSlash_no_slash r (h r (List.mem_singleton.mpr rfl))
  | r :: r2 :: t, h, _ => by
      rw [pyJoin_cons_cons, splitSlash_append r _ (h r (by simp)),
        splitSlash_pyJoin (r2 :: t) (fun q hq => h q (by simp [hq])) (by simp)]

theorem splitWsAux_nil_eq (acc : List Char) :
    splitWsAux [] acc = if acc = [] then [] else [acc.reverse] := rfl

theorem splitWsAux_cons_eq (c : Char) (t acc : List Char) :
    splitWsAux (c :: t) acc =
      if c.isWhitespace then
        (if acc = [] then splitWsAux t [] else acc.reverse :: splitWsAux t [])
      else splitWsAux t (c :: acc) := rfl

theorem splitWsAux_cons_nonws (c : Char) (t acc : List Char) (hc : c.isWhitespace = false) :
    splitWsAux (c :: t) acc = splitWsAux t (c :: acc) := by
  rw [splitWsAux_cons_eq, hc]
  simp

theorem splitWsAux_nonws : ∀ (t r acc : List Char), (∀ c ∈ t, c.isWhitespace = false) →
    splitWsAux (t ++ r) acc = splitWsAux r (t.reverse ++ acc)
  | [], r, acc, _ => rfl
  | c :: t, r, acc, h => by
      show splitWsAux (c :: (t ++ r)) acc = _
      rw [splitWsAux_cons_nonws c _ acc (h c (List.mem_cons_self c t)),
        splitWsAux_nonws t r (c :: acc) (fun d hd => h d (List.mem_cons_of_mem c hd))]
      simp

theorem splitWsAux_token (f r : List Char) (hne : f ≠ [])
    (hws : ∀ c ∈ f, c.isWhitespace = false) :
    splitWsAux (f ++ ' ' :: r) [] = f :: splitWsAux r [] := by
  rw [splitWsAux_nonws f (' ' :: r) [] hws,
    splitWsAux_cons_eq, if_pos (by decide : (' ').isWhitespace = true),
    if_neg (by simp [hne])]
  simp

/-- `str.split()` undoes `' '.join` on nonempty whitespace-free fields. -/
theorem splitWs_pyJoin : ∀ (fields : List (List Char)),
    (∀ f ∈ fields, f ≠ [] ∧ ∀ c ∈ f, c.isWhitespace = false) →
    splitWs (pyJoin ' ' fields) = fields
  | [], _ => rfl
  | [f], h => by
      have hf := h f (List.mem_singleton.mpr rfl)
      show splitWsAux f [] = [f]
      calc splitWsAux f [] = splitWsAux (f ++ []) [] := by rw [List.append_nil]
        _ = splitWsAux [] (f.reverse ++ []) := splitWsAux_nonws f [] [] hf.2
        _ = [f] := by
            rw [splitWsAux_nil_eq, if_neg (by simp [hf.1])]
            simp
  | f :: g :: t, h => by
      have hf := h f (by simp)
      show splitWsAux (pyJoin ' ' (f :: g :: t)) [] = f :: (g :: t)
      rw [pyJoin_cons_cons, splitWsAux_token f _ hf.1 hf.2]
      exact congrArg (f :: ·) (splitWs_pyJoin (g :: t) (fun q hq => h q (by simp [hq])))

theorem padFields_six (a b c d e f : List Char) :
    padFields [a, b, c, d, e, f] = [a, b, c, d, e, f] := rfl

theorem map_self_of_eq {α : Type} (f : α → α) :
    ∀ (l : List α), (∀ a ∈ l, f a = a) → l.map f = l
  | [], _ => rfl
  | a :: t, h => by
      rw [List.map_cons, h a (List.mem_cons_self a t),
        map_self_of_eq f t (fun b hb => h b (List.mem_cons_of_mem a hb))]

theorem board_to_fen_no_ws (B : Board) (hb : boardWF B)
    (hv : ∀ row ∈ B, ∀ c ∈ row, validCell c) :
    ∀ c ∈ board_to_fen B, c.isWhitespace = false := by
  intro c hc
  have hc' : c ∈ pyJoin '/' (B.map (fun row => fenRowAux row 0)) := hc
  rcases pyJoin_mem '/' _ c hc' with h | ⟨r, hr, hcr⟩
  · subst h; decide
  · rw [List.mem_map] at hr
    obtain ⟨row, hrow, rfl⟩ := hr
    have h8 := hb.2 row hrow
    rcases fenRowAux_chars row 0 (by omega) c hcr with ⟨h, _⟩ | h
    · exact h
    · exact (hv row hrow c h).2.2

theorem board_to_fen_ne_nil (B : Board) (hb : boardWF B) : board_to_fen B ≠ [] := by
  cases hB : B with
  | nil => rw [hB] at hb; exact absurd hb.1 (by simp)
  | cons r rest =>
    have h8 : r.length = 8 := hb.2 r (by rw [hB]; exact List.mem_cons_self r rest)
    show pyJoin '/' ((r :: rest).map (fun row => fenRowAux row 0)) ≠ []
    rw [List.map_cons]
    exact pyJoin_ne_nil '/' _ _ (fenRowAux_ne_nil r 0 (by omega) (by omega))

theorem splitSlash_board_to_fen (B : Board) (hb : boardWF B)
    (hv : ∀ row ∈ B, ∀ c ∈ row, validCell c) :
    splitSlash (board_to_fen B) = B.map (fun row => fenRowAux row 0) := by
  show splitSlash (pyJoin '/' (B.map (fun row => fenRowAux row 0))) = _
  apply splitSlash_pyJoin
  · intro r hr c hc
    rw [List.mem_map] at hr
    obtain ⟨row, hrow, rfl⟩ := hr
    have h8 := hb.2 row hrow
    rcases fenRowAux_chars row 0 (by omega) c hc with ⟨_, h⟩ | h
    · exact h
    · exact (hv row hrow c h).2.1
  · have : B ≠ [] := by
      intro h
      rw [h] at hb
      exact absurd hb.1 (by simp)
    simp [this]

/-- Core of the round trip: parsing the exact six-field FEN line that
`update_fen` emits for a fresh state recovers its board and active color. -/
theorem updatefen_gsInit_core (B : Board) (w : Bool)
    (hb : boardWF B) (hv : ∀ row ∈ B, ∀ c ∈ row, validCell c) :
    (gsInit (String.mk (pyJoin ' '
      [board_to_fen B, (if w then ['w'] else ['b']),
       ['K', 'Q', 'k', 'q'], ['-'], ['0'], ['1']]))).board = B ∧
    (gsInit (String.mk (pyJoin ' '
      [board_to_fen B, (if w then ['w'] else ['b']),
       ['K', 'Q', 'k', 'q'], ['-'], ['0'], ['1']]))).white_to_move = w := by
  have hsplit : splitWs (pyJoin ' '
      [board_to_fen B, (if w then ['w'] else ['b']),
       ['K', 'Q', 'k', 'q'], ['-'], ['0'], ['1']]) =
      [board_to_fen B, (if w then ['w'] else ['b']),
       ['K', 'Q', 'k', 'q'], ['-'], ['0'], ['1']] := by
    apply splitWs_pyJoin
    intro f hf
    simp only [List.mem_cons, List.not_mem_nil, or_false] at hf
    rcases hf with h | h | h | h | h | h <;> subst h
    · exact ⟨board_to_fen_ne_nil B hb, board_to_fen_no_ws B hb hv⟩
    · cases w
      · exact ⟨by simp, by decide⟩
      · exact ⟨by simp, by decide⟩
    · exact ⟨by simp, by decide⟩
    · exact ⟨by simp, by decide⟩
    · exact ⟨by simp, by decide⟩
    · exact ⟨by simp, by decide⟩
  constructor
  · show fen_to_board (pyJoin ' ' (padFields (splitWs (pyJoin ' '
      [board_to_fen B, (if w then ['w'] else ['b']),
       ['K', 'Q', 'k', 'q'], ['-'], ['0'], ['1']])))) = B
    rw [hsplit, padFields_six]
    show (splitSlash ((splitWs (pyJoin ' '
      [board_to_fen B, (if w then ['w'] else ['b']),
       ['K', 'Q', 'k', 'q'], ['-'], ['0'], ['1']])).headD [])).map expandRank = B
    rw [hsplit]
    show (splitSlash (board_to_fen B)).map expandRank = B
    rw [splitSlash_board_to_fen B hb hv, List.map_map]
    refine map_self_of_eq _ B ?_
    intro row hrow
    show expandRank (fenRowAux row 0) = row
    have h8 := hb.2 row hrow
    have := fenRow_roundtrip row 0 (by omega) (fun c hc => (hv row hrow c hc).1)
    simpa using this
  · show decide (((padFields (splitWs (pyJoin ' '
      [board_to_fen B, (if w then ['w'] else ['b']),
       ['K', 'Q', 'k', 'q'], ['-'], ['0'], ['1']]))).getD 1 []) = ['w']) = w
    rw [hsplit, padFields_six]
    show decide ((if w then ['w'] else ['b']) = ['w']) = w
    cases w <;> decide

/-- C3 (amended): `update_fen` followed by `GameState(fen)` recovers the board
and active color of a freshly parsed state, provided parsing produced a genuine
8×8 grid of non-digit, non-slash, non-whitespace cells; the remaining four FEN
fields are serialized from the fresh state's hard-coded attributes (all castling
rights, no en-passant square, halfmove 0, empty move log), not from the input. -/
theorem serialize_then_parse_recovers_board_and_color (t : String)
    (hb : boardWF (gsInit t).board)
    (hv : ∀ row ∈ (gsInit t).board, ∀ c ∈ row, validCell c) :
    (gsInit ((update_fen (gsInit t)).current_fen)).board = (gsInit t).board ∧
    (gsInit ((update_fen (gsInit t)).current_fen)).white_to_move = (gsInit t).white_to_move ∧
    (gsInit t).current_castling_rights = ⟨true, true, true, true⟩ ∧
    (gsInit t).enpassant_possible = none ∧
    (gsInit t).fifty_move_counter = 0 ∧
    (gsInit t).move_log = [] := by
  have hcr : (gsInit t).current_castling_rights = ⟨true, true, true, true⟩ := rfl
  have hfi : (gsInit t).fifty_move_counter = 0 := rfl
  have hml : (gsInit t).move_log = [] := rfl
  have hfen : (update_fen (gsInit t)).current_fen = String.mk (pyJoin ' '
      [board_to_fen (gsInit t).board,
       (if (gsInit t).white_to_move then ['w'] else ['b']),
       castleField (gsInit t).current_castling_rights,
       ['-'],
       (Nat.repr (gsInit t).fifty_move_counter).data,
       (Nat.repr ((gsInit t).move_log.length / 2 + 1)).data]) := rfl
  rw [hcr, hfi, hml] at hfen
  rw [show castleField ⟨true, true, true, true⟩ = ['K', 'Q', 'k', 'q'] from rfl] at hfen
  rw [show (Nat.repr (0 : Nat)).data = ['0'] from rfl] at hfen
  rw [show (Nat.repr (List.length ([] : List Move) / 2 + 1)).data = ['1'] from rfl] at hfen
  rw [hfen]
  have hc := updatefen_gsInit_core (gsInit t).board (gsInit t).white_to_move hb hv
  exact ⟨hc.1, hc.2, rfl, rfl, rfl, rfl⟩

theorem serialize_then_parse_recovers_board_and_color_witness :
    (boardWF (gsInit INITIAL_FEN).board ∧
      ∀ row ∈ (gsInit INITIAL_FEN).board, ∀ c ∈ row, validCell c) ∧
    ((gsInit ((update_fen (gsInit INITIAL_FEN)).current_fen)).board =
        (gsInit INITIAL_FEN).board ∧
      (gsInit ((update_fen (gsInit INITIAL_FEN)).current_fen)).white_to_move =
        (gsInit INITIAL_FEN).white_to_move ∧
      (gsInit INITIAL_FEN).current_castling_rights = ⟨true, true, true, true⟩ ∧
      (gsInit INITIAL_FEN).enpassant_possible = none ∧
      (gsInit INITIAL_FEN).fifty_move_counter = 0 ∧
      (gsInit INITIAL_FEN).move_log = []) :=
  ⟨⟨by decide, by decide⟩,
    serialize_then_parse_recovers_board_and_color INITIAL_FEN (by decide) (by decide)⟩
